import Mathlib

/-! Chip8Emulator: the interpreter core of `chip8.c` and the parts of `display.c` it calls.

The C program keeps its machine in global variables.  Here they are the fields
of one record, `State`, and every C function becomes a function on that record.

Conventions of the embedding.

* `uint8_t`/`uint16_t` cells are natural numbers; every store that narrows a C
  `int` is written with an explicit `% 256` or `% 65536`.
* `pc` and the saved return addresses are pointers into `memory`; they are
  represented by their offset from `memory`, an integer.
* `stack_ptr` is represented by its offset from `stack`.
* An access outside an array (`memory[4096]`, `stack[16]`, `stack[-1]`,
  `keyboard[16]`, `display[64][0]`) has no defined result in C: the functions
  return `none` there.
* What the host decides during one instruction (the answer of `frame_drawn()`,
  the value of `rand()`) is passed in a `Host` record.  Calls that only talk
  to SDL (`draw`, the rendering part of `clear_screen`) leave the record
  unchanged.
* The function `frame_drawn` itself is embedded on its own, with the counter
  readings as arguments and exact rationals in place of `float`.
-/

namespace Chip8

/-! ## Constants of `chip8.c` and `display.c` -/

abbrev MEMORY_SIZE : Nat := 4096
abbrev MEMORY_OFFSET : Nat := 512
abbrev WIDTH : Nat := 64
abbrev HEIGHT : Nat := 32
abbrev NUM_KEYS : Nat := 16
abbrev NO_KEY : Nat := 16
abbrev STACK_SIZE : Nat := 16

/-! ## The machine -/

/-- The globals of `chip8.c` (`memory` .. `stack_ptr`) and of `display.c`
(`display`, `keyboard`, `key_up`). -/
@[ext]
structure State where
  memory : Nat → Nat
  pc : Int
  registers : Nat → Nat
  index_register : Nat
  sound_timer : Nat
  delay_timer : Nat
  stack : Nat → Int
  stack_ptr : Nat
  display : Nat → Nat → Bool
  keyboard : Nat → Bool
  key_up : Nat

/-- What the environment answers during one instruction: the result of
`frame_drawn()` and the result of `rand()`. -/
structure Host where
  frame_drawn : Bool
  rand : Nat

/-- The ranges the C types give the cells: bytes below 256, the index register
below 65536. -/
structure State.WF (s : State) : Prop where
  registers_lt : ∀ i, s.registers i < 256
  memory_lt : ∀ a, s.memory a < 256
  index_lt : s.index_register < 65536
  sound_lt : s.sound_timer < 256
  delay_lt : s.delay_timer < 256
  key_up_lt : s.key_up < 256

/-- Array store `a[i] = v`. -/
def put {α : Type} (a : Nat → α) (i : Nat) (v : α) : Nat → α :=
  fun k => if k = i then v else a k

/-- Store `display[x][y] = v`. -/
def put2 (d : Nat → Nat → Bool) (x y : Nat) (v : Bool) : Nat → Nat → Bool :=
  fun a b => if a = x ∧ b = y then v else d a b

/-- Store `registers[i] = v`, narrowing to `uint8_t`. -/
def State.set_reg (s : State) (i v : Nat) : State :=
  { s with registers := put s.registers i (v % 256) }

/-- Value of a C `bool` stored into a byte. -/
def ofBool (b : Bool) : Nat := if b then 1 else 0

/-- Macro `NIBBLE(n)`: `((instruction >> (16 - n * 4)) & 0xF)`. -/
def NIBBLE (instruction n : Nat) : Nat := (instruction >>> (16 - n * 4)) &&& 0xF

/-- Read `memory[a]`. -/
def mem_read (mem : Nat → Nat) (a : Nat) : Option Nat :=
  if a < MEMORY_SIZE then some (mem a) else none

/-- Store `memory[a] = v`, narrowing to `uint8_t`. -/
def mem_write (mem : Nat → Nat) (a v : Nat) : Option (Nat → Nat) :=
  if a < MEMORY_SIZE then some (put mem a (v % 256)) else none

/-- Read `*p` for a pointer `p = memory + off`. -/
def deref (mem : Nat → Nat) (off : Int) : Option Nat :=
  if 0 ≤ off then mem_read mem off.toNat else none

/-! ## `display.c` -/

/-- Function `clear_screen`: every cell of the bitmap becomes 0. -/
def clear_screen (s : State) : State :=
  { s with display := fun _ _ => false }

/-- Function `toggle_pixel`: `return !(display[x][y] = !display[x][y]);`
The result is the new bitmap and the returned value. -/
def toggle_pixel (d : Nat → Nat → Bool) (x y : Nat) : Option ((Nat → Nat → Bool) × Bool) :=
  if x < WIDTH ∧ y < HEIGHT then
    let v := !(d x y)
    some (put2 d x y v, !v)
  else none

/-- Function `key_down`: `return keyboard[key];` -/
def key_down (s : State) (key : Nat) : Option Bool :=
  if key < NUM_KEYS then some (s.keyboard key) else none

/-- Function `key_pressed`, called with `&registers[x]`. -/
def key_pressed (s : State) (x : Nat) : State × Bool :=
  if s.key_up ≠ NO_KEY then
    ({ s with registers := put s.registers x s.key_up, key_up := NO_KEY }, true)
  else (s, false)

/-! ## `chip8.c` -/

/-- Function `fetch`: reads `*pc++ << 8` and `*pc++`, returns their `|`. -/
def fetch (s : State) : Option (Nat × State) :=
  match deref s.memory s.pc, deref s.memory (s.pc + 1) with
  | some b1, some b2 =>
      let t1 := (b1 <<< 8) % 65536
      let t2 := b2
      some (t1 ||| t2, { s with pc := s.pc + 2 })
  | _, _ => none

/-- Case `0x8` of `execute_instruction`: the inner `switch (instruction & 0xF)`. -/
def execute_8 (s : State) (instruction : Nat) : State :=
  let x := NIBBLE instruction 2
  let y := NIBBLE instruction 3
  match instruction &&& 0xF with
  | 0x0 => s.set_reg x (s.registers y)
  | 0x1 => (s.set_reg x (s.registers x ||| s.registers y)).set_reg 15 0
  | 0x2 => (s.set_reg x (s.registers x &&& s.registers y)).set_reg 15 0
  | 0x3 => (s.set_reg x (s.registers x ^^^ s.registers y)).set_reg 15 0
  | 0x4 =>
      let temp := (s.registers x + s.registers y) % 65536
      (s.set_reg x (temp &&& 0xFF)).set_reg 15 (ofBool (decide (temp ≥ 256)))
  | 0x5 =>
      -- the difference of two bytes fits `int16_t`
      let temp : Int := (s.registers x : Int) - (s.registers y : Int)
      (s.set_reg x (temp % 256).toNat).set_reg 15 (ofBool (decide (temp ≥ 0)))
  | 0x7 =>
      let temp : Int := (s.registers y : Int) - (s.registers x : Int)
      (s.set_reg x (temp % 256).toNat).set_reg 15 (ofBool (decide (temp ≥ 0)))
  | 0x6 =>
      let temp : Bool := decide (s.registers y &&& 0x1 ≠ 0)
      let s1 := s.set_reg x (s.registers y)
      let s2 := s1.set_reg x (s1.registers x >>> 1)
      s2.set_reg 15 (ofBool temp)
  | 0xE =>
      let temp : Bool := decide (s.registers y >>> 7 ≠ 0)
      let s1 := s.set_reg x (s.registers y)
      let s2 := s1.set_reg x (s1.registers x <<< 1)
      s2.set_reg 15 (ofBool temp)
  | _ => s

/-- Inner loop of the draw case, `for(; i < 8 && x + i < 64; i++)`, for the
sprite byte `row` of screen row `y + j`.  The first argument is `8 - i`, the
number of iterations left before `i < 8` fails. -/
def draw_cols (row x y j : Nat) : Nat → Nat → State → Option State
  | 0, _, st => some st
  | k + 1, i, st =>
      if x + i < 64 then
        if (row >>> (7 - i)) &&& 0x1 ≠ 0 then
          match toggle_pixel st.display (x + i) (y + j) with
          | some (d, prev) =>
              let st1 := { st with display := d }
              draw_cols row x y j k (i + 1) (if prev then st1.set_reg 15 1 else st1)
          | none => none
        else draw_cols row x y j k (i + 1) st
      else some st

/-- Outer loop of the draw case, `for(; j < length && y + j < 32; j++)`.  The
first argument is `length - j`, the number of iterations left before
`j < length` fails. -/
def draw_rows (x y : Nat) : Nat → Nat → State → Option State
  | 0, _, st => some st
  | k + 1, j, st =>
      if y + j < 32 then
        match mem_read st.memory (st.index_register + j) with
        | some row =>
            match draw_cols row x y j 8 0 st with
            | some st1 => draw_rows x y k (j + 1) st1
            | none => none
        | none => none
      else some st

/-- Case `0xD` of `execute_instruction`. -/
def execute_D (h : Host) (s : State) (instruction : Nat) : Option State :=
  if !h.frame_drawn then some { s with pc := s.pc - 2 }
  else
    let x := (s.registers (NIBBLE instruction 2) &&& 63) % 256
    let y := (s.registers (NIBBLE instruction 3) &&& 31) % 256
    let length := NIBBLE instruction 4
    draw_rows x y length 0 (s.set_reg 15 0)

/-- Case `0xE` of `execute_instruction`: the inner `switch (instruction & 0xF)`. -/
def execute_E (s : State) (instruction : Nat) : Option State :=
  match instruction &&& 0xF with
  | 0xE =>
      match key_down s (s.registers (NIBBLE instruction 2)) with
      | some b => some (if b then { s with pc := s.pc + 2 } else s)
      | none => none
  | 0x1 =>
      match key_down s (s.registers (NIBBLE instruction 2)) with
      | some b => some (if !b then { s with pc := s.pc + 2 } else s)
      | none => none
  | _ => some s

/-- Loop of case `0x33`, `for(; i >= 0; i--)` from `i = 2`.  The first
argument is `i + 1`. -/
def bcd_loop : Nat → Nat → State → Option State
  | 0, _, st => some st
  | i + 1, temp, st =>
      match mem_write st.memory (st.index_register + i) (temp % 10) with
      | some m => bcd_loop i (temp / 10 % 256) { st with memory := m }
      | none => none

/-- Loop of case `0x55`, `for(; i <= x; i++)`.  The first argument is
`x + 1 - i`, the number of iterations left. -/
def store_loop : Nat → Nat → State → Option State
  | 0, _, st => some st
  | k + 1, i, st =>
      match mem_write st.memory (st.index_register + i) (st.registers i) with
      | some m => store_loop k (i + 1) { st with memory := m }
      | none => none

/-- Loop of case `0x65`, `for(; i <= x; i++)`.  The first argument is
`x + 1 - i`, the number of iterations left. -/
def load_loop : Nat → Nat → State → Option State
  | 0, _, st => some st
  | k + 1, i, st =>
      match mem_read st.memory (st.index_register + i) with
      | some v => load_loop k (i + 1) (st.set_reg i v)
      | none => none

/-- Case `0xF` of `execute_instruction`: the inner `switch (instruction & 0xFF)`. -/
def execute_F (s : State) (instruction : Nat) : Option State :=
  let x := NIBBLE instruction 2
  match instruction &&& 0xFF with
  | 0x7 => some (s.set_reg x s.delay_timer)
  | 0x15 => some { s with delay_timer := s.registers x }
  | 0x18 => some { s with sound_timer := s.registers x }
  | 0x1E =>
      let s1 := { s with index_register := (s.index_register + s.registers x) % 65536 }
      some (s1.set_reg 15 (ofBool (decide (s1.index_register > 0xFFF))))
  | 0xA =>
      let r := key_pressed s x
      some (if !r.2 then { r.1 with pc := r.1.pc - 2 } else r.1)
  | 0x29 => some { s with index_register := (s.registers x * 5) % 65536 }
  | 0x33 => bcd_loop 3 (s.registers x) s
  | 0x55 =>
      match store_loop (x + 1) 0 s with
      | some s1 => some { s1 with index_register := (s1.index_register + (x + 1)) % 65536 }
      | none => none
  | 0x65 =>
      match load_loop (x + 1) 0 s with
      | some s1 => some { s1 with index_register := (s1.index_register + (x + 1)) % 65536 }
      | none => none
  | _ => some s

/-- Function `execute_instruction`: the outer `switch (NIBBLE(1))`. -/
def execute_instruction (h : Host) (s : State) (instruction : Nat) : Option State :=
  match NIBBLE instruction 1 with
  | 0x0 =>
      if instruction = 0xE0 then some (clear_screen s)
      else if instruction = 0xEE then
        -- `pc = *--stack_ptr;`
        if 0 < s.stack_ptr ∧ s.stack_ptr - 1 < STACK_SIZE then
          some { s with stack_ptr := s.stack_ptr - 1, pc := s.stack (s.stack_ptr - 1) }
        else none
      else some s
  | 0x1 => some { s with pc := ((instruction &&& 0xFFF : Nat) : Int) }
  | 0x2 =>
      -- `*stack_ptr++ = pc;`
      if s.stack_ptr < STACK_SIZE then
        some { s with stack := put s.stack s.stack_ptr s.pc,
                      stack_ptr := s.stack_ptr + 1,
                      pc := ((instruction &&& 0xFFF : Nat) : Int) }
      else none
  | 0x3 =>
      some (if s.registers (NIBBLE instruction 2) = instruction &&& 0xFF
            then { s with pc := s.pc + 2 } else s)
  | 0x4 =>
      some (if s.registers (NIBBLE instruction 2) ≠ instruction &&& 0xFF
            then { s with pc := s.pc + 2 } else s)
  | 0x5 =>
      some (if s.registers (NIBBLE instruction 2) = s.registers (NIBBLE instruction 3)
            then { s with pc := s.pc + 2 } else s)
  | 0x6 => some (s.set_reg (NIBBLE instruction 2) (instruction &&& 0xFF))
  | 0x7 =>
      some (s.set_reg (NIBBLE instruction 2)
        (s.registers (NIBBLE instruction 2) + (instruction &&& 0xFF)))
  | 0x8 => some (execute_8 s instruction)
  | 0x9 =>
      some (if s.registers (NIBBLE instruction 2) ≠ s.registers (NIBBLE instruction 3)
            then { s with pc := s.pc + 2 } else s)
  | 0xA => some { s with index_register := instruction &&& 0xFFF }
  | 0xB => some { s with pc := ((s.registers 0 + (instruction &&& 0xFFF) : Nat) : Int) }
  | 0xC =>
      some (s.set_reg (NIBBLE instruction 2) ((h.rand % 256) &&& (instruction &&& 0xFF)))
  | 0xD => execute_D h s instruction
  | 0xE => execute_E s instruction
  | 0xF => execute_F s instruction
  | _ => some s

/-- One pass through the second `if` of the loop in `run_chip`:
`instruction = fetch(); execute_instruction(instruction);`. -/
def cycle (h : Host) (s : State) : Option State :=
  match fetch s with
  | some (instruction, s1) => execute_instruction h s1 instruction
  | none => none

/-- Big-endian instruction word with nibbles `a b c d`. -/
def word (a b c d : Nat) : Nat := a * 4096 + b * 256 + c * 16 + d

/-- The instruction word that `fetch` returns in state `s`, when it returns. -/
def fetched (s : State) : Option Nat := (fetch s).map Prod.fst

/-! ## Concrete machines used to instantiate the theorems -/

/-- A host whose frame window is open. -/
def host_open : Host := { frame_drawn := true, rand := 0 }

/-- A small program at address 512, `6005 7003 31C8 E09E`, and a two-row sprite
`FF 81` at address 768. -/
def sample_memory : Nat → Nat := fun a =>
  if a = 512 then 0x60 else if a = 513 then 0x05
  else if a = 514 then 0x70 else if a = 515 then 0x03
  else if a = 516 then 0x31 else if a = 517 then 0xC8
  else if a = 518 then 0xE0 else if a = 519 then 0x9E
  else if a = 768 then 0xFF else if a = 769 then 0x81
  else 0

/-- Registers V1 = 200, V2 = 100, V3 = 214, V4 = 60, V15 = 7, the others 0. -/
def sample_registers : Nat → Nat := fun i =>
  if i = 1 then 200 else if i = 2 then 100 else if i = 3 then 214 else if i = 4 then 60
  else if i = 15 then 7 else 0

/-- A machine at the start of the program `sample_memory`, with an empty call
stack, a blank screen, no key held and no key released. -/
def sample : State :=
  { memory := sample_memory
    pc := 512
    registers := sample_registers
    index_register := 768
    sound_timer := 0
    delay_timer := 0
    stack := fun _ => 0
    stack_ptr := 0
    display := fun _ _ => false
    keyboard := fun _ => false
    key_up := NO_KEY }

/-- The sample machine about to run `E09E` at address 518 with V0 = 16, a
value that is not a key code. -/
def sample_key16 : State :=
  { sample with pc := 518, registers := fun i => if i = 0 then 16 else 0 }

/-- The sample machine about to run `31C8` (skip if V1 = 200) at address 516. -/
def sample_skip : State := { sample with pc := 516 }

/-! ## The timer block of `run_chip` -/

/-- Body of the first `if` of the loop in `run_chip`, the timer block:
`if(sound_timer > 0) { sound_timer--; play_beep(); }` and
`if(delay_timer > 0) { delay_timer--; }`.  The second component tells whether
`play_beep()` was called. -/
def timer_action (s : State) : State × Bool :=
  let r : State × Bool :=
    if s.sound_timer > 0 then ({ s with sound_timer := s.sound_timer - 1 }, true)
    else (s, false)
  let s2 : State :=
    if r.1.delay_timer > 0 then { r.1 with delay_timer := r.1.delay_timer - 1 } else r.1
  (s2, r.2)

/-! ## Initialization (`initialize_file`) -/

/-- Table `font`. -/
def font : List Nat :=
  [0xF0, 0x90, 0x90, 0x90, 0xF0,
   0x20, 0x60, 0x20, 0x20, 0x70,
   0xF0, 0x10, 0xF0, 0x80, 0xF0,
   0xF0, 0x10, 0xF0, 0x10, 0xF0,
   0x90, 0x90, 0xF0, 0x10, 0x10,
   0xF0, 0x80, 0xF0, 0x10, 0xF0,
   0xF0, 0x80, 0xF0, 0x90, 0xF0,
   0xF0, 0x10, 0x20, 0x40, 0x40,
   0xF0, 0x90, 0xF0, 0x90, 0xF0,
   0xF0, 0x90, 0xF0, 0x10, 0xF0,
   0xF0, 0x90, 0xF0, 0x90, 0x90,
   0xE0, 0x90, 0xE0, 0x90, 0xE0,
   0xF0, 0x80, 0x80, 0x80, 0xF0,
   0xE0, 0x90, 0x90, 0x90, 0xE0,
   0xF0, 0x80, 0xF0, 0x80, 0xF0,
   0xF0, 0x80, 0xF0, 0x80, 0x80]

/-- Loop `while(fread(&buf, ...)) { *it++ = buf; }` of `initialize_file` over
the bytes of the file; `it` is the offset of the pointer from `memory`. -/
def load_file : List Nat → Nat → (Nat → Nat) → Option (Nat → Nat)
  | [], _, mem => some mem
  | buf :: rest, it, mem =>
      match mem_write mem it buf with
      | some m => load_file rest (it + 1) m
      | none => none

/-- Loop `for(; i < 80; i++) { memory[i] = font[i]; }` of `initialize_file`.
The first argument is `80 - i`. -/
def font_loop : Nat → Nat → (Nat → Nat) → (Nat → Nat)
  | 0, _, mem => mem
  | k + 1, i, mem => font_loop k (i + 1) (put mem i (font.getD i 0 % 256))

/-- Function `initialize_file` on the bytes of the file at `filepath`: the
program goes to `memory + MEMORY_OFFSET`, then the font to `memory[0..79]`. -/
def initialize_file (s : State) (file : List Nat) : Option State :=
  match load_file file MEMORY_OFFSET s.memory with
  | some m => some { s with memory := font_loop 80 0 m }
  | none => none

/-- The globals as their C initialisers leave them: zeroes,
`pc = memory + MEMORY_OFFSET`, `stack_ptr = stack`, `key_up = NO_KEY`.  (The
slots of `stack` hold null pointers; they are not read before a call writes
them, and stand here as offset 0.) -/
def power_on : State :=
  { memory := fun _ => 0
    pc := 512
    registers := fun _ => 0
    index_register := 0
    sound_timer := 0
    delay_timer := 0
    stack := fun _ => 0
    stack_ptr := 0
    display := fun _ _ => false
    keyboard := fun _ => false
    key_up := NO_KEY }

/-- The machine after `initialize_file` on `file`, or `power_on` when the file
does not fit. -/
def boot (file : List Nat) : State := (initialize_file power_on file).getD power_on

/-! ## The instruction list of the specification -/

/-- The instruction words the specification names as known: 00E0, 00EE, 1NNN,
2NNN, 3XNN, 4XNN, 5XY0, 6XNN, 7XNN, 8XY0..8XY7, 8XYE, 9XY0, ANNN, BNNN, CXNN,
DXYN, EX9E, EXA1, FX07, FX0A, FX15, FX18, FX1E, FX29, FX33, FX55, FX65.  This
follows the wording of the specification, not the decoder of the code. -/
def listed (w : Nat) : Bool :=
  let n1 := w / 4096 % 16
  let lo := w % 16
  let lb := w % 256
  w == 0x00E0 || w == 0x00EE || n1 == 1 || n1 == 2 || n1 == 3 || n1 == 4 ||
  (n1 == 5 && lo == 0) || n1 == 6 || n1 == 7 ||
  (n1 == 8 && (lo ≤ 7 || lo == 0xE)) || (n1 == 9 && lo == 0) ||
  n1 == 0xA || n1 == 0xB || n1 == 0xC || n1 == 0xD ||
  (n1 == 0xE && (lb == 0x9E || lb == 0xA1)) ||
  (n1 == 0xF && (lb == 0x07 || lb == 0x0A || lb == 0x15 || lb == 0x18 || lb == 0x1E ||
    lb == 0x29 || lb == 0x33 || lb == 0x55 || lb == 0x65))

/-! ## More concrete machines -/

/-- A host whose frame window is closed. -/
def host_closed : Host := { frame_drawn := false, rand := 0 }

/-- Memory that holds `bytes` from address `base` on and 0 elsewhere. -/
def bytes_at (base : Nat) (bytes : List Nat) : Nat → Nat := fun a =>
  if base ≤ a then bytes.getD (a - base) 0 else 0

/-- The sample machine about to run `D402` at address 512. -/
def sample_draw : State := { sample with memory := bytes_at 512 [0xD4, 0x02] }

/-- The sample machine about to run `F50A`, followed by `F60A`, at address 512,
with no key released. -/
def sample_wait : State := { sample with memory := bytes_at 512 [0xF5, 0x0A, 0xF6, 0x0A] }

/-- The machine `sample_wait` after key 7 was released. -/
def sample_wait7 : State := { sample_wait with key_up := 7 }

/-- The sample machine with all 16 stack slots in use. -/
def sample_full : State := { sample with stack_ptr := 16 }

/-- The sample machine inside one call made from address 512. -/
def sample_called : State := { sample with stack := fun _ => 514, stack_ptr := 1, pc := 768 }

/-- The sample machine about to run the word `8128`, which no case decodes. -/
def sample_unknown : State := { sample with memory := bytes_at 512 [0x81, 0x28] }

/-- The machine after initialization on the two-byte program `F033`. -/
def booted_bcd : State := boot [0xF0, 0x33]

/-- The machine `booted_bcd` with the index register moved to 768. -/
def booted_bcd_768 : State := { booted_bcd with index_register := 768 }

/-- The sample machine about to run `6005` in the last two bytes of memory. -/
def sample_edge : State := { sample with pc := 4094, memory := bytes_at 4094 [0x60, 0x05] }

/-- The sample machine about to run `BFFF` with V0 = 255. -/
def sample_jump_offset : State :=
  { sample with memory := bytes_at 512 [0xBF, 0xFF], registers := fun i => if i = 0 then 255 else 0 }

/-- The instructions that decide the program counter themselves, as the code
decodes them: jump, call, the skips (first nibble 3, 4, 5, 9, or E with last
nibble E or 1), jump-offset, return, a draw while the frame window is closed,
and FX0A while no released key is latched. -/
def sets_pc (h : Host) (s : State) (w : Nat) : Prop :=
  NIBBLE w 1 = 1 ∨ NIBBLE w 1 = 2 ∨ NIBBLE w 1 = 3 ∨ NIBBLE w 1 = 4 ∨ NIBBLE w 1 = 5 ∨
  NIBBLE w 1 = 9 ∨ NIBBLE w 1 = 0xB ∨ w = 0xEE ∨
  (NIBBLE w 1 = 0xE ∧ (w &&& 0xF = 0xE ∨ w &&& 0xF = 0x1)) ∨
  (NIBBLE w 1 = 0xD ∧ h.frame_drawn = false) ∨
  (NIBBLE w 1 = 0xF ∧ w &&& 0xFF = 0xA ∧ s.key_up = NO_KEY)

/-- The sample machine with the pixel at column 60 of row 0 switched on. -/
def sample_lit : State := { sample with display := fun a b => decide (a = 60 ∧ b = 0) }

/-! ## The frame limiter of `display.c` -/

abbrev FPS : Nat := 60

/-- Function `frame_drawn`.  `frame_start` is the static of that name, `now`
and `later` are what the first and the second call of
`SDL_GetPerformanceCounter()` return, `freq` is what
`SDL_GetPerformanceFrequency()` returns.  The counter difference is taken in
`Uint64`; the `float` quotient and product and the `double` threshold
`1.0 / FPS` are written with exact rationals, so rounding is not part of this
definition.  The result is the returned `bool` and `frame_start` afterwards. -/
def frame_drawn (frame_start now later freq : Nat) : Bool × Nat :=
  let frame_end := now
  let time_dif : ℚ :=
    (((frame_end + 2 ^ 64 - frame_start) % 2 ^ 64 : Nat) : ℚ) / (freq : ℚ) * 1000
  if time_dif > 1 / (FPS : ℚ) then (true, later) else (false, frame_start)

/-- Seconds between counter readings `frame_start` and `now` at `freq` ticks
per second. -/
def elapsed_seconds (frame_start now freq : Nat) : ℚ :=
  (((now + 2 ^ 64 - frame_start) % 2 ^ 64 : Nat) : ℚ) / (freq : ℚ)

/-! ## The pixels a sprite covers -/

/-- Pixel `(a, b)` is on the screen and under a set bit of the `n`-row sprite at
`memory[I ..]` placed with its top left corner at `(X, Y)`. -/
def sprite_covers (s : State) (X Y n a b : Nat) : Prop :=
  Y ≤ b ∧ b < Y + n ∧ b < 32 ∧ X ≤ a ∧ a < X + 8 ∧ a < 64 ∧
    (s.memory (s.index_register + (b - Y))).testBit (7 - (a - X)) = true

instance (s : State) (X Y n a b : Nat) : Decidable (sprite_covers s X Y n a b) := by
  unfold sprite_covers
  infer_instance

/-- The sample machine with every pixel switched on. -/
def sample_all_lit : State := { sample with display := fun _ _ => true }

/-! ## Arithmetic of instruction words -/

theorem and_0xF (n : Nat) : n &&& 0xF = n % 16 := Nat.and_pow_two_sub_one_eq_mod n 4

theorem and_0xFF (n : Nat) : n &&& 0xFF = n % 256 := Nat.and_pow_two_sub_one_eq_mod n 8

theorem and_0xFFF (n : Nat) : n &&& 0xFFF = n % 4096 := Nat.and_pow_two_sub_one_eq_mod n 12

theorem NIBBLE_1 (n : Nat) : NIBBLE n 1 = n / 4096 % 16 := by
  simp [NIBBLE, and_0xF, Nat.shiftRight_eq_div_pow]

theorem NIBBLE_2 (n : Nat) : NIBBLE n 2 = n / 256 % 16 := by
  simp [NIBBLE, and_0xF, Nat.shiftRight_eq_div_pow]

theorem NIBBLE_3 (n : Nat) : NIBBLE n 3 = n / 16 % 16 := by
  simp [NIBBLE, and_0xF, Nat.shiftRight_eq_div_pow]

theorem NIBBLE_4 (n : Nat) : NIBBLE n 4 = n % 16 := by
  simp [NIBBLE, and_0xF]

section word
variable {a b c d : Nat}

theorem NIBBLE_1_word (ha : a < 16) (hb : b < 16) (hc : c < 16) (hd : d < 16) :
    NIBBLE (word a b c d) 1 = a := by
  rw [NIBBLE_1, word]; omega

theorem NIBBLE_2_word (hb : b < 16) (hc : c < 16) (hd : d < 16) :
    NIBBLE (word a b c d) 2 = b := by
  rw [NIBBLE_2, word]; omega

theorem NIBBLE_3_word (hc : c < 16) (hd : d < 16) :
    NIBBLE (word a b c d) 3 = c := by
  rw [NIBBLE_3, word]; omega

theorem NIBBLE_4_word (hd : d < 16) : NIBBLE (word a b c d) 4 = d := by
  rw [NIBBLE_4, word]; omega

theorem word_and_0xF (hd : d < 16) : word a b c d &&& 0xF = d := by
  rw [and_0xF, word]; omega

theorem word_and_0xFF (hc : c < 16) (hd : d < 16) : word a b c d &&& 0xFF = c * 16 + d := by
  rw [and_0xFF, word]; omega

theorem word_and_0xFFF (hb : b < 16) (hc : c < 16) (hd : d < 16) :
    word a b c d &&& 0xFFF = b * 256 + c * 16 + d := by
  rw [and_0xFFF, word]; omega

end word

/-! ## Stores -/

@[simp] theorem put_same {α : Type} (a : Nat → α) (i : Nat) (v : α) : put a i v i = v := by
  simp [put]

theorem put_other {α : Type} (a : Nat → α) (i : Nat) (v : α) (k : Nat) (h : k ≠ i) :
    put a i v k = a k := by
  simp [put, h]

theorem put_apply {α : Type} (a : Nat → α) (i : Nat) (v : α) (k : Nat) :
    put a i v k = if k = i then v else a k := rfl

@[simp] theorem set_reg_registers (s : State) (i v : Nat) :
    (s.set_reg i v).registers = put s.registers i (v % 256) := rfl

@[simp] theorem set_reg_memory (s : State) (i v : Nat) : (s.set_reg i v).memory = s.memory := rfl

@[simp] theorem set_reg_pc (s : State) (i v : Nat) : (s.set_reg i v).pc = s.pc := rfl

@[simp] theorem set_reg_index (s : State) (i v : Nat) :
    (s.set_reg i v).index_register = s.index_register := rfl

@[simp] theorem set_reg_display (s : State) (i v : Nat) :
    (s.set_reg i v).display = s.display := rfl

@[simp] theorem set_reg_stack (s : State) (i v : Nat) : (s.set_reg i v).stack = s.stack := rfl

@[simp] theorem set_reg_stack_ptr (s : State) (i v : Nat) :
    (s.set_reg i v).stack_ptr = s.stack_ptr := rfl

@[simp] theorem set_reg_sound (s : State) (i v : Nat) :
    (s.set_reg i v).sound_timer = s.sound_timer := rfl

@[simp] theorem set_reg_delay (s : State) (i v : Nat) :
    (s.set_reg i v).delay_timer = s.delay_timer := rfl

@[simp] theorem set_reg_keyboard (s : State) (i v : Nat) :
    (s.set_reg i v).keyboard = s.keyboard := rfl

@[simp] theorem set_reg_key_up (s : State) (i v : Nat) : (s.set_reg i v).key_up = s.key_up := rfl

/-- Case `0x8` is reached from `execute_instruction` for every word `8xyd`. -/
theorem execute_instruction_8 (h : Host) (s : State) {x y d : Nat}
    (hx : x < 16) (hy : y < 16) (hd : d < 16) :
    execute_instruction h s (word 8 x y d) = some (execute_8 s (word 8 x y d)) := by
  simp [execute_instruction, NIBBLE_1_word (by omega : 8 < 16) hx hy hd]

/-! ## Register arithmetic (case `0x8`) -/

/-- C1. Executing 8XY4 leaves register 15 equal to 1 if Vx + Vy > 255 and to 0
otherwise; when x is not 15, Vx becomes (Vx + Vy) mod 256; the registers other
than Vx and V15 keep their values. -/
theorem reg_add_8XY4 (h : Host) (s : State) (hs : s.WF) (x y : Nat) (hx : x < 16) (hy : y < 16) :
    ∃ s1, execute_instruction h s (word 8 x y 4) = some s1 ∧
      s1.registers 15 = (if s.registers x + s.registers y > 255 then 1 else 0) ∧
      (x ≠ 15 → s1.registers x = (s.registers x + s.registers y) % 256) ∧
      (∀ k, k ≠ x → k ≠ 15 → s1.registers k = s.registers k) := by
  have ha := hs.registers_lt x
  have hb := hs.registers_lt y
  refine ⟨_, execute_instruction_8 h s hx hy (by omega), ?_, ?_, ?_⟩
  · simp only [execute_8, word_and_0xF (by omega : 4 < 16), NIBBLE_2_word hx hy (by omega : 4 < 16),
      NIBBLE_3_word hy (by omega : 4 < 16), set_reg_registers, put_same, ofBool]
    by_cases hc : s.registers x + s.registers y > 255
    · have : (s.registers x + s.registers y) % 65536 ≥ 256 := by omega
      simp [hc, this]
    · have : ¬ (s.registers x + s.registers y) % 65536 ≥ 256 := by omega
      simp [hc, this]
  · intro hx15
    simp only [execute_8, word_and_0xF (by omega : 4 < 16), NIBBLE_2_word hx hy (by omega : 4 < 16),
      NIBBLE_3_word hy (by omega : 4 < 16), set_reg_registers, put_other _ _ _ _ hx15, put_same,
      and_0xFF]
    omega
  · intro k hk hk15
    simp only [execute_8, word_and_0xF (by omega : 4 < 16), NIBBLE_2_word hx hy (by omega : 4 < 16),
      NIBBLE_3_word hy (by omega : 4 < 16), set_reg_registers, put_other _ _ _ _ hk15,
      put_other _ _ _ _ hk]

/-- C2. Executing 8XY5 leaves register 15 equal to 1 exactly when Vx >= Vy and,
when x is not 15, Vx equal to (Vx - Vy) mod 256; executing 8XY7 leaves
register 15 equal to 1 exactly when Vy >= Vx and, when x is not 15, Vx equal
to (Vy - Vx) mod 256. -/
theorem reg_sub_8XY5_8XY7 (h : Host) (s : State) (hs : s.WF) (x y : Nat)
    (hx : x < 16) (hy : y < 16) :
    (∃ s1, execute_instruction h s (word 8 x y 5) = some s1 ∧
      s1.registers 15 = (if s.registers x ≥ s.registers y then 1 else 0) ∧
      (x ≠ 15 → (s1.registers x : Int) = ((s.registers x : Int) - s.registers y) % 256)) ∧
    (∃ s2, execute_instruction h s (word 8 x y 7) = some s2 ∧
      s2.registers 15 = (if s.registers y ≥ s.registers x then 1 else 0) ∧
      (x ≠ 15 → (s2.registers x : Int) = ((s.registers y : Int) - s.registers x) % 256)) := by
  have ha := hs.registers_lt x
  have hb := hs.registers_lt y
  refine ⟨⟨_, execute_instruction_8 h s hx hy (by omega), ?_, ?_⟩,
    ⟨_, execute_instruction_8 h s hx hy (by omega), ?_, ?_⟩⟩
  · simp only [execute_8, word_and_0xF (by omega : 5 < 16), set_reg_registers, put_same,
      NIBBLE_2_word hx hy (by omega : 5 < 16), NIBBLE_3_word hy (by omega : 5 < 16), ofBool]
    by_cases hc : s.registers x ≥ s.registers y
    · have : (s.registers x : Int) - s.registers y ≥ 0 := by omega
      simp [hc, this]
    · have : ¬ ((s.registers x : Int) - s.registers y ≥ 0) := by omega
      simp [hc, this]
  · intro hx15
    simp only [execute_8, word_and_0xF (by omega : 5 < 16), set_reg_registers, put_same,
      NIBBLE_2_word hx hy (by omega : 5 < 16), NIBBLE_3_word hy (by omega : 5 < 16),
      put_other _ _ _ _ hx15]
    omega
  · simp only [execute_8, word_and_0xF (by omega : 7 < 16), set_reg_registers, put_same,
      NIBBLE_2_word hx hy (by omega : 7 < 16), NIBBLE_3_word hy (by omega : 7 < 16), ofBool]
    by_cases hc : s.registers y ≥ s.registers x
    · have : (s.registers y : Int) - s.registers x ≥ 0 := by omega
      simp [hc, this]
    · have : ¬ ((s.registers y : Int) - s.registers x ≥ 0) := by omega
      simp [hc, this]
  · intro hx15
    simp only [execute_8, word_and_0xF (by omega : 7 < 16), set_reg_registers, put_same,
      NIBBLE_2_word hx hy (by omega : 7 < 16), NIBBLE_3_word hy (by omega : 7 < 16),
      put_other _ _ _ _ hx15]
    omega

/-- C3. The shifts take their operand from Vy: executing 8XY6 leaves register
15 equal to Vy mod 2 and, when x is not 15, Vx equal to Vy div 2; executing
8XYE leaves register 15 equal to Vy div 128 and, when x is not 15, Vx equal to
(2 * Vy) mod 256.  The value Vx had before does not occur in the result. -/
theorem shift_8XY6_8XYE (h : Host) (s : State) (hs : s.WF) (x y : Nat)
    (hx : x < 16) (hy : y < 16) :
    (∃ s1, execute_instruction h s (word 8 x y 6) = some s1 ∧
      s1.registers 15 = s.registers y % 2 ∧
      (x ≠ 15 → s1.registers x = s.registers y / 2)) ∧
    (∃ s2, execute_instruction h s (word 8 x y 0xE) = some s2 ∧
      s2.registers 15 = s.registers y / 128 ∧
      (x ≠ 15 → s2.registers x = (2 * s.registers y) % 256)) := by
  have hb := hs.registers_lt y
  refine ⟨⟨_, execute_instruction_8 h s hx hy (by omega), ?_, ?_⟩,
    ⟨_, execute_instruction_8 h s hx hy (by omega), ?_, ?_⟩⟩
  · simp only [execute_8, word_and_0xF (by omega : 6 < 16), set_reg_registers, put_same,
      NIBBLE_2_word hx hy (by omega : 6 < 16), NIBBLE_3_word hy (by omega : 6 < 16), ofBool,
      Nat.and_one_is_mod]
    rcases Nat.mod_two_eq_zero_or_one (s.registers y) with h0 | h1
    · simp [h0]
    · simp [h1]
  · intro hx15
    simp only [execute_8, word_and_0xF (by omega : 6 < 16), set_reg_registers, put_same,
      NIBBLE_2_word hx hy (by omega : 6 < 16), NIBBLE_3_word hy (by omega : 6 < 16),
      put_other _ _ _ _ hx15, Nat.shiftRight_eq_div_pow]
    omega
  · simp only [execute_8, word_and_0xF (by omega : 0xE < 16), set_reg_registers, put_same,
      NIBBLE_2_word hx hy (by omega : 0xE < 16), NIBBLE_3_word hy (by omega : 0xE < 16), ofBool,
      Nat.shiftRight_eq_div_pow]
    by_cases hc : s.registers y / 2 ^ 7 = 0
    · have : s.registers y / 128 = 0 := by omega
      simp [hc, this]
    · have : s.registers y / 128 = 1 := by omega
      simp [hc, this]
  · intro hx15
    simp only [execute_8, word_and_0xF (by omega : 0xE < 16), set_reg_registers, put_same,
      NIBBLE_2_word hx hy (by omega : 0xE < 16), NIBBLE_3_word hy (by omega : 0xE < 16),
      put_other _ _ _ _ hx15, Nat.shiftLeft_eq]
    omega

/-- C4. Executing 8XY1, 8XY2 or 8XY3 leaves register 15 equal to 0 whatever it
held before, also for x = 15 or y = 15; when x is not 15, Vx becomes the
bitwise or, and, xor of the former Vx and Vy. -/
theorem logic_8XY1_8XY2_8XY3 (h : Host) (s : State) (hs : s.WF) (x y : Nat)
    (hx : x < 16) (hy : y < 16) :
    (∃ s1, execute_instruction h s (word 8 x y 1) = some s1 ∧ s1.registers 15 = 0 ∧
      (x ≠ 15 → s1.registers x = s.registers x ||| s.registers y)) ∧
    (∃ s2, execute_instruction h s (word 8 x y 2) = some s2 ∧ s2.registers 15 = 0 ∧
      (x ≠ 15 → s2.registers x = s.registers x &&& s.registers y)) ∧
    (∃ s3, execute_instruction h s (word 8 x y 3) = some s3 ∧ s3.registers 15 = 0 ∧
      (x ≠ 15 → s3.registers x = s.registers x ^^^ s.registers y)) := by
  have ha : s.registers x < 2 ^ 8 := hs.registers_lt x
  have hb : s.registers y < 2 ^ 8 := hs.registers_lt y
  have hor : s.registers x ||| s.registers y < 2 ^ 8 := Nat.or_lt_two_pow ha hb
  have hand : s.registers x &&& s.registers y < 2 ^ 8 := Nat.and_lt_two_pow _ hb
  have hxor : s.registers x ^^^ s.registers y < 2 ^ 8 := Nat.xor_lt_two_pow ha hb
  refine ⟨⟨_, execute_instruction_8 h s hx hy (by omega), ?_, ?_⟩,
    ⟨_, execute_instruction_8 h s hx hy (by omega), ?_, ?_⟩,
    ⟨_, execute_instruction_8 h s hx hy (by omega), ?_, ?_⟩⟩
  · simp [execute_8, word_and_0xF (by omega : 1 < 16)]
  · intro hx15
    simp only [execute_8, word_and_0xF (by omega : 1 < 16), set_reg_registers, put_same,
      NIBBLE_2_word hx hy (by omega : 1 < 16), NIBBLE_3_word hy (by omega : 1 < 16),
      put_other _ _ _ _ hx15]
    exact Nat.mod_eq_of_lt hor
  · simp [execute_8, word_and_0xF (by omega : 2 < 16)]
  · intro hx15
    simp only [execute_8, word_and_0xF (by omega : 2 < 16), set_reg_registers, put_same,
      NIBBLE_2_word hx hy (by omega : 2 < 16), NIBBLE_3_word hy (by omega : 2 < 16),
      put_other _ _ _ _ hx15]
    exact Nat.mod_eq_of_lt hand
  · simp [execute_8, word_and_0xF (by omega : 3 < 16)]
  · intro hx15
    simp only [execute_8, word_and_0xF (by omega : 3 < 16), set_reg_registers, put_same,
      NIBBLE_2_word hx hy (by omega : 3 < 16), NIBBLE_3_word hy (by omega : 3 < 16),
      put_other _ _ _ _ hx15]
    exact Nat.mod_eq_of_lt hxor

/-! ## The sample machine -/

theorem ite_lt_of {c : Prop} [Decidable c] {a b n : Nat} (ha : a < n) (hb : b < n) :
    (if c then a else b) < n := by
  split <;> assumption

theorem sample_WF : sample.WF := by
  refine ⟨?_, ?_, by decide, by decide, by decide, by decide⟩
  · intro i
    show sample_registers i < 256
    unfold sample_registers
    repeat' apply ite_lt_of
    all_goals decide
  · intro a
    show sample_memory a < 256
    unfold sample_memory
    repeat' apply ite_lt_of
    all_goals decide

/-- Instance of C1 at V1 = 200, V2 = 100 (a carry). -/
theorem reg_add_8XY4_witness :
    ∃ s1, execute_instruction host_open sample (word 8 1 2 4) = some s1 ∧
      s1.registers 15 = (if sample.registers 1 + sample.registers 2 > 255 then 1 else 0) ∧
      (1 ≠ 15 → s1.registers 1 = (sample.registers 1 + sample.registers 2) % 256) ∧
      (∀ k, k ≠ 1 → k ≠ 15 → s1.registers k = sample.registers k) :=
  reg_add_8XY4 host_open sample sample_WF 1 2 (by decide) (by decide)

/-- Instance of C2 at V1 = 200, V2 = 100. -/
theorem reg_sub_8XY5_8XY7_witness :
    (∃ s1, execute_instruction host_open sample (word 8 1 2 5) = some s1 ∧
      s1.registers 15 = (if sample.registers 1 ≥ sample.registers 2 then 1 else 0) ∧
      (1 ≠ 15 →
        (s1.registers 1 : Int) = ((sample.registers 1 : Int) - sample.registers 2) % 256)) ∧
    (∃ s2, execute_instruction host_open sample (word 8 1 2 7) = some s2 ∧
      s2.registers 15 = (if sample.registers 2 ≥ sample.registers 1 then 1 else 0) ∧
      (1 ≠ 15 →
        (s2.registers 1 : Int) = ((sample.registers 2 : Int) - sample.registers 1) % 256)) :=
  reg_sub_8XY5_8XY7 host_open sample sample_WF 1 2 (by decide) (by decide)

/-- Instance of C3 with destination V1 = 200 and source V3 = 214. -/
theorem shift_8XY6_8XYE_witness :
    (∃ s1, execute_instruction host_open sample (word 8 1 3 6) = some s1 ∧
      s1.registers 15 = sample.registers 3 % 2 ∧
      (1 ≠ 15 → s1.registers 1 = sample.registers 3 / 2)) ∧
    (∃ s2, execute_instruction host_open sample (word 8 1 3 0xE) = some s2 ∧
      s2.registers 15 = sample.registers 3 / 128 ∧
      (1 ≠ 15 → s2.registers 1 = (2 * sample.registers 3) % 256)) :=
  shift_8XY6_8XYE host_open sample sample_WF 1 3 (by decide) (by decide)

/-- Instance of C4 at V1 = 200, V2 = 100, with V15 = 7 before. -/
theorem logic_8XY1_8XY2_8XY3_witness :
    (∃ s1, execute_instruction host_open sample (word 8 1 2 1) = some s1 ∧
      s1.registers 15 = 0 ∧
      (1 ≠ 15 → s1.registers 1 = sample.registers 1 ||| sample.registers 2)) ∧
    (∃ s2, execute_instruction host_open sample (word 8 1 2 2) = some s2 ∧
      s2.registers 15 = 0 ∧
      (1 ≠ 15 → s2.registers 1 = sample.registers 1 &&& sample.registers 2)) ∧
    (∃ s3, execute_instruction host_open sample (word 8 1 2 3) = some s3 ∧
      s3.registers 15 = 0 ∧
      (1 ≠ 15 → s3.registers 1 = sample.registers 1 ^^^ sample.registers 2)) :=
  logic_8XY1_8XY2_8XY3 host_open sample sample_WF 1 2 (by decide) (by decide)

/-! ## Call and return -/

/-- C5. With fewer than 16 saved addresses on the stack, executing 2NNN puts
the program counter at nnn, and executing 00EE right after it restores the
program counter and the stack depth of before the call; registers, index
register, memory and timers are those of before the call. -/
theorem call_return_round_trip (h1 h2 : Host) (s : State) (nnn : Nat) (hn : nnn < 4096)
    (hdepth : s.stack_ptr < 16) :
    ∃ s1 s2, execute_instruction h1 s (0x2000 + nnn) = some s1 ∧ s1.pc = (nnn : Int) ∧
      execute_instruction h2 s1 0x00EE = some s2 ∧
      s2.pc = s.pc ∧ s2.stack_ptr = s.stack_ptr ∧ s2.registers = s.registers ∧
      s2.index_register = s.index_register ∧ s2.memory = s.memory ∧
      s2.sound_timer = s.sound_timer ∧ s2.delay_timer = s.delay_timer := by
  have hn1 : (0x2000 + nnn) / 4096 % 16 = 2 := by omega
  have hn3 : (0x2000 + nnn) % 4096 = nnn := by omega
  refine ⟨{ s with stack := put s.stack s.stack_ptr s.pc, stack_ptr := s.stack_ptr + 1,
                   pc := (nnn : Int) }, { s with stack := put s.stack s.stack_ptr s.pc },
    ?_, rfl, ?_, rfl, rfl, rfl, rfl, rfl, rfl, rfl⟩
  · simp [execute_instruction, NIBBLE_1, hn1, and_0xFFF, hn3, hdepth]
  · have h0 : NIBBLE 0xEE 1 = 0 := by decide
    simp [execute_instruction, h0, hdepth]

/-- Instance of C5: `call 0x204` then `return` on the sample machine. -/
theorem call_return_round_trip_witness :
    ∃ s1 s2, execute_instruction host_open sample (0x2000 + 0x204) = some s1 ∧
      s1.pc = ((0x204 : Nat) : Int) ∧
      execute_instruction host_open s1 0x00EE = some s2 ∧
      s2.pc = sample.pc ∧ s2.stack_ptr = sample.stack_ptr ∧ s2.registers = sample.registers ∧
      s2.index_register = sample.index_register ∧ s2.memory = sample.memory ∧
      s2.sound_timer = sample.sound_timer ∧ s2.delay_timer = sample.delay_timer :=
  call_return_round_trip host_open host_open sample 0x204 (by decide) (by decide)

/-! ## Fetch -/

/-- When `fetch` returns, it has advanced `pc` by 2 and changed nothing else. -/
theorem fetch_of_fetched {s : State} {w : Nat} (hf : fetched s = some w) :
    fetch s = some (w, { s with pc := s.pc + 2 }) := by
  unfold fetched fetch at hf
  unfold fetch
  cases h1 : deref s.memory s.pc <;> cases h2 : deref s.memory (s.pc + 1) <;>
    simp_all

/-- A cycle is `execute_instruction` on the fetched word with `pc` advanced by 2. -/
theorem cycle_of_fetched (h : Host) {s : State} {w : Nat} (hf : fetched s = some w) :
    cycle h s = execute_instruction h { s with pc := s.pc + 2 } w := by
  simp [cycle, fetch_of_fetched hf]

/-! ## Skips -/

/-- C6, amended. In a cycle that fetches 3XNN, 4XNN, 5XY0 or 9XY0, or that
fetches EX9E or EXA1 while Vx is a key code 0..15, the program counter
advances by 4 when the predicate of the instruction holds and by 2 otherwise,
and nothing else in the machine changes. -/
theorem skip_advances (h : Host) (s : State) (w x y nn : Nat) (taken : Bool)
    (hx : x < 16) (hy : y < 16) (hnn : nn < 256)
    (hf : fetched s = some w)
    (hw : (w = 0x3000 + x * 256 + nn ∧ taken = decide (s.registers x = nn)) ∨
          (w = 0x4000 + x * 256 + nn ∧ taken = decide (s.registers x ≠ nn)) ∨
          (w = 0x5000 + x * 256 + y * 16 ∧
            taken = decide (s.registers x = s.registers y)) ∨
          (w = 0x9000 + x * 256 + y * 16 ∧
            taken = decide (s.registers x ≠ s.registers y)) ∨
          (w = 0xE09E + x * 256 ∧ s.registers x < 16 ∧
            taken = s.keyboard (s.registers x)) ∨
          (w = 0xE0A1 + x * 256 ∧ s.registers x < 16 ∧
            taken = !s.keyboard (s.registers x))) :
    cycle h s = some { s with pc := s.pc + (if taken then 4 else 2) } := by
  rw [cycle_of_fetched h hf]
  have e4 : s.pc + 2 + 2 = s.pc + 4 := by omega
  rcases hw with ⟨rfl, ht⟩ | ⟨rfl, ht⟩ | ⟨rfl, ht⟩ | ⟨rfl, ht⟩ | ⟨rfl, hk, ht⟩ | ⟨rfl, hk, ht⟩
  · have n1 : (0x3000 + x * 256 + nn) / 4096 % 16 = 3 := by omega
    have n2 : (0x3000 + x * 256 + nn) / 256 % 16 = x := by omega
    have n3 : (0x3000 + x * 256 + nn) % 256 = nn := by omega
    by_cases hp : s.registers x = nn <;>
      simp [execute_instruction, NIBBLE_1, NIBBLE_2, and_0xFF, n1, n2, n3, hp, ht, e4]
  · have n1 : (0x4000 + x * 256 + nn) / 4096 % 16 = 4 := by omega
    have n2 : (0x4000 + x * 256 + nn) / 256 % 16 = x := by omega
    have n3 : (0x4000 + x * 256 + nn) % 256 = nn := by omega
    by_cases hp : s.registers x = nn <;>
      simp [execute_instruction, NIBBLE_1, NIBBLE_2, and_0xFF, n1, n2, n3, hp, ht, e4]
  · have n1 : (0x5000 + x * 256 + y * 16) / 4096 % 16 = 5 := by omega
    have n2 : (0x5000 + x * 256 + y * 16) / 256 % 16 = x := by omega
    have n3 : (0x5000 + x * 256 + y * 16) / 16 % 16 = y := by omega
    by_cases hp : s.registers x = s.registers y <;>
      simp [execute_instruction, NIBBLE_1, NIBBLE_2, NIBBLE_3, n1, n2, n3, hp, ht, e4]
  · have n1 : (0x9000 + x * 256 + y * 16) / 4096 % 16 = 9 := by omega
    have n2 : (0x9000 + x * 256 + y * 16) / 256 % 16 = x := by omega
    have n3 : (0x9000 + x * 256 + y * 16) / 16 % 16 = y := by omega
    by_cases hp : s.registers x = s.registers y <;>
      simp [execute_instruction, NIBBLE_1, NIBBLE_2, NIBBLE_3, n1, n2, n3, hp, ht, e4]
  · have n1 : (0xE09E + x * 256) / 4096 % 16 = 0xE := by omega
    have n2 : (0xE09E + x * 256) / 256 % 16 = x := by omega
    have n3 : (0xE09E + x * 256) % 16 = 0xE := by omega
    cases hp : s.keyboard (s.registers x) <;>
      simp [execute_instruction, execute_E, key_down, NIBBLE_1, NIBBLE_2, and_0xF, n1, n2, n3,
        hp, ht, hk, e4]
  · have n1 : (0xE0A1 + x * 256) / 4096 % 16 = 0xE := by omega
    have n2 : (0xE0A1 + x * 256) / 256 % 16 = x := by omega
    have n3 : (0xE0A1 + x * 256) % 16 = 0x1 := by omega
    cases hp : s.keyboard (s.registers x) <;>
      simp [execute_instruction, execute_E, key_down, NIBBLE_1, NIBBLE_2, and_0xF, n1, n2, n3,
        hp, ht, hk, e4]

/-- Instance of C6 as amended: `31C8` with V1 = 200 skips. -/
theorem skip_advances_witness :
    fetched sample_skip = some (0x3000 + 1 * 256 + 200) ∧
    cycle host_open sample_skip =
      some { sample_skip with pc := sample_skip.pc + (if true then 4 else 2) } :=
  ⟨by decide, skip_advances host_open sample_skip (0x3000 + 1 * 256 + 200) 1 0 200 true
    (by decide) (by decide) (by decide) (by decide) (Or.inl ⟨rfl, by decide⟩)⟩

theorem sample_key16_WF : sample_key16.WF := by
  refine ⟨?_, sample_WF.memory_lt, by decide, by decide, by decide, by decide⟩
  intro i
  show (if i = 0 then 16 else 0) < 256
  exact ite_lt_of (by decide) (by decide)

/-- C6 as stated fails: in a well-formed machine whose next instruction is E09E
and whose V0 holds 16, `key_down` reads `keyboard[16]`, outside the 16 key
flags, and the cycle has no defined result. -/
theorem skip_key_out_of_range :
    sample_key16.WF ∧ fetched sample_key16 = some (0xE09E + 0 * 256) ∧
    sample_key16.registers 0 = 16 ∧ cycle host_open sample_key16 = none :=
  ⟨sample_key16_WF, by decide, by decide, rfl⟩

/-- Case `0xF` is reached from `execute_instruction` for every word `Fx..`. -/
theorem execute_instruction_F (h : Host) (s : State) {x lo : Nat} (hx : x < 16) (hlo : lo < 256) :
    execute_instruction h s (0xF000 + x * 256 + lo) =
      execute_F s (0xF000 + x * 256 + lo) := by
  have n1 : (0xF000 + x * 256 + lo) / 4096 % 16 = 0xF := by omega
  simp [execute_instruction, NIBBLE_1, n1]

/-! ## Binary-coded decimal -/

/-- The three iterations of the loop of case `0x33`. -/
theorem bcd_loop_three (st : State) (v : Nat) (hv : v < 256)
    (hI : st.index_register + 2 < 4096) :
    bcd_loop 3 v st =
      some { st with
        memory := put (put (put st.memory (st.index_register + 2) (v % 10))
          (st.index_register + 1) (v / 10 % 10)) st.index_register (v / 100) } := by
  have b0 : st.index_register < 4096 := by omega
  have b1 : st.index_register + 1 < 4096 := by omega
  have e0 : v % 10 % 256 = v % 10 := by omega
  have q1 : v / 10 % 256 = v / 10 := by omega
  have e1 : v / 10 % 10 % 256 = v / 10 % 10 := by omega
  have q2 : v / 10 / 10 = v / 100 := by omega
  have q3 : v / 100 % 256 = v / 100 := by omega
  have e2 : v / 100 % 10 % 256 = v / 100 := by omega
  simp only [bcd_loop, mem_write, b0, b1, hI, if_true, e0, q1, e1, q2, q3, e2, Nat.add_zero]

/-- C7. With I + 2 <= 4095, executing FX33 writes Vx div 100, (Vx div 10) mod 10
and Vx mod 10 to memory[I], memory[I+1], memory[I+2]; each is at most 9 and
100 * memory[I] + 10 * memory[I+1] + memory[I+2] = Vx; no other memory byte, no
register and not the index register changes.  For Vx = 214 the bytes are 2, 1, 4. -/
theorem store_bcd_FX33 (h : Host) (s : State) (hs : s.WF) (x : Nat) (hx : x < 16)
    (hI : s.index_register + 2 ≤ 4095) :
    ∃ s1, execute_instruction h s (0xF033 + x * 256) = some s1 ∧
      s1.memory s.index_register = s.registers x / 100 ∧
      s1.memory (s.index_register + 1) = s.registers x / 10 % 10 ∧
      s1.memory (s.index_register + 2) = s.registers x % 10 ∧
      s1.memory s.index_register ≤ 9 ∧ s1.memory (s.index_register + 1) ≤ 9 ∧
      s1.memory (s.index_register + 2) ≤ 9 ∧
      100 * s1.memory s.index_register + 10 * s1.memory (s.index_register + 1) +
        s1.memory (s.index_register + 2) = s.registers x ∧
      (∀ a, a ≠ s.index_register → a ≠ s.index_register + 1 → a ≠ s.index_register + 2 →
        s1.memory a = s.memory a) ∧
      s1.registers = s.registers ∧ s1.index_register = s.index_register ∧
      (s.registers x = 214 → s1.memory s.index_register = 2 ∧
        s1.memory (s.index_register + 1) = 1 ∧ s1.memory (s.index_register + 2) = 4) := by
  have hv := hs.registers_lt x
  have e : 0xF033 + x * 256 = 0xF000 + x * 256 + 0x33 := by omega
  have n2 : (0xF000 + x * 256 + 0x33) / 256 % 16 = x := by omega
  have n3 : (0xF000 + x * 256 + 0x33) % 256 = 0x33 := by omega
  have hex : execute_instruction h s (0xF033 + x * 256) = bcd_loop 3 (s.registers x) s := by
    rw [e, execute_instruction_F h s hx (by omega)]
    simp only [execute_F, and_0xFF, n3, NIBBLE_2, n2]
  rw [hex, bcd_loop_three s _ hv (by omega)]
  have m0 : put (put (put s.memory (s.index_register + 2) (s.registers x % 10))
      (s.index_register + 1) (s.registers x / 10 % 10)) s.index_register (s.registers x / 100)
      s.index_register = s.registers x / 100 := put_same _ _ _
  have m1 : put (put (put s.memory (s.index_register + 2) (s.registers x % 10))
      (s.index_register + 1) (s.registers x / 10 % 10)) s.index_register (s.registers x / 100)
      (s.index_register + 1) = s.registers x / 10 % 10 := by
    rw [put_other _ _ _ _ (by omega), put_same]
  have m2 : put (put (put s.memory (s.index_register + 2) (s.registers x % 10))
      (s.index_register + 1) (s.registers x / 10 % 10)) s.index_register (s.registers x / 100)
      (s.index_register + 2) = s.registers x % 10 := by
    rw [put_other _ _ _ _ (by omega), put_other _ _ _ _ (by omega), put_same]
  refine ⟨_, rfl, m0, m1, m2, ?_, ?_, ?_, ?_, ?_, rfl, rfl, ?_⟩
  · dsimp only; rw [m0]; omega
  · dsimp only; rw [m1]; omega
  · dsimp only; rw [m2]; omega
  · dsimp only; rw [m0, m1, m2]; omega
  · intro a a0 a1 a2
    show put (put (put s.memory _ _) _ _) _ _ a = s.memory a
    rw [put_other _ _ _ _ a0, put_other _ _ _ _ a1, put_other _ _ _ _ a2]
  · intro h214
    dsimp only
    rw [m0, m1, m2, h214]
    decide

/-- Instance of C7 at V3 = 214 and I = 768. -/
theorem store_bcd_FX33_witness :
    ∃ s1, execute_instruction host_open sample (0xF033 + 3 * 256) = some s1 ∧
      s1.memory sample.index_register = sample.registers 3 / 100 ∧
      s1.memory (sample.index_register + 1) = sample.registers 3 / 10 % 10 ∧
      s1.memory (sample.index_register + 2) = sample.registers 3 % 10 ∧
      s1.memory sample.index_register ≤ 9 ∧ s1.memory (sample.index_register + 1) ≤ 9 ∧
      s1.memory (sample.index_register + 2) ≤ 9 ∧
      100 * s1.memory sample.index_register + 10 * s1.memory (sample.index_register + 1) +
        s1.memory (sample.index_register + 2) = sample.registers 3 ∧
      (∀ a, a ≠ sample.index_register → a ≠ sample.index_register + 1 →
        a ≠ sample.index_register + 2 → s1.memory a = sample.memory a) ∧
      s1.registers = sample.registers ∧ s1.index_register = sample.index_register ∧
      (sample.registers 3 = 214 → s1.memory sample.index_register = 2 ∧
        s1.memory (sample.index_register + 1) = 1 ∧
        s1.memory (sample.index_register + 2) = 4) :=
  store_bcd_FX33 host_open sample sample_WF 3 (by decide) (by decide)

/-! ## Register block store and load -/

/-- The loop of case `0x55` started at `i` with `k` iterations to go copies
`registers[i .. i+k-1]` to `memory[I+i .. I+i+k-1]`. -/
theorem store_loop_eq (k : Nat) : ∀ (i : Nat) (st : State),
    st.index_register + i + k ≤ 4096 → (∀ r, st.registers r < 256) →
    store_loop k i st = some { st with
      memory := fun a =>
        if st.index_register + i ≤ a ∧ a < st.index_register + i + k
        then st.registers (a - st.index_register) else st.memory a } := by
  induction k with
  | zero =>
    intro i st _ _
    simp only [store_loop, Option.some.injEq]
    ext a <;> try rfl
    have : ¬ (st.index_register + i ≤ a ∧ a < st.index_register + i + 0) := by omega
    simp only [this, if_false]
  | succ k ih =>
    intro i st hb hr
    have b : st.index_register + i < 4096 := by omega
    simp only [store_loop, mem_write, b, if_true]
    rw [ih (i + 1) { st with memory := put st.memory (st.index_register + i) (st.registers i % 256) }
      (by show st.index_register + (i + 1) + k ≤ 4096; omega) hr]
    simp only [Option.some.injEq]
    ext a <;> try rfl
    show (if st.index_register + (i + 1) ≤ a ∧ a < st.index_register + (i + 1) + k
        then st.registers (a - st.index_register)
        else put st.memory (st.index_register + i) (st.registers i % 256) a) =
      (if st.index_register + i ≤ a ∧ a < st.index_register + i + (k + 1)
        then st.registers (a - st.index_register) else st.memory a)
    by_cases ha : a = st.index_register + i
    · subst ha
      have c1 : ¬ (st.index_register + (i + 1) ≤ st.index_register + i ∧
          st.index_register + i < st.index_register + (i + 1) + k) := by omega
      have c2 : st.index_register + i ≤ st.index_register + i ∧
          st.index_register + i < st.index_register + i + (k + 1) := by omega
      rw [if_neg c1, if_pos c2, put_same, Nat.add_sub_cancel_left]
      exact Nat.mod_eq_of_lt (hr i)
    · rw [put_other _ _ _ _ ha]
      by_cases c : st.index_register + (i + 1) ≤ a ∧ a < st.index_register + (i + 1) + k
      · have c2 : st.index_register + i ≤ a ∧ a < st.index_register + i + (k + 1) := by omega
        rw [if_pos c, if_pos c2]
      · have c2 : ¬ (st.index_register + i ≤ a ∧ a < st.index_register + i + (k + 1)) := by
          omega
        rw [if_neg c, if_neg c2]

/-- The loop of case `0x65` started at `i` with `k` iterations to go copies
`memory[I+i .. I+i+k-1]` to `registers[i .. i+k-1]`. -/
theorem load_loop_eq (k : Nat) : ∀ (i : Nat) (st : State),
    st.index_register + i + k ≤ 4096 → (∀ a, st.memory a < 256) →
    load_loop k i st = some { st with
      registers := fun r =>
        if i ≤ r ∧ r < i + k then st.memory (st.index_register + r) else st.registers r } := by
  induction k with
  | zero =>
    intro i st _ _
    simp only [load_loop, Option.some.injEq]
    ext r <;> try rfl
    have : ¬ (i ≤ r ∧ r < i + 0) := by omega
    simp only [this, if_false]
  | succ k ih =>
    intro i st hb hm
    have b : st.index_register + i < 4096 := by omega
    simp only [load_loop, mem_read, b, if_true]
    rw [ih (i + 1) (st.set_reg i (st.memory (st.index_register + i)))
      (by show st.index_register + (i + 1) + k ≤ 4096; omega) hm]
    simp only [Option.some.injEq]
    ext r <;> try rfl
    show (if i + 1 ≤ r ∧ r < i + 1 + k then st.memory (st.index_register + r)
        else put st.registers i (st.memory (st.index_register + i) % 256) r) =
      (if i ≤ r ∧ r < i + (k + 1) then st.memory (st.index_register + r) else st.registers r)
    by_cases hr : r = i
    · subst hr
      have c1 : ¬ (r + 1 ≤ r ∧ r < r + 1 + k) := by omega
      have c2 : r ≤ r ∧ r < r + (k + 1) := by omega
      rw [if_neg c1, if_pos c2, put_same]
      exact Nat.mod_eq_of_lt (hm _)
    · rw [put_other _ _ _ _ hr]
      by_cases c : i + 1 ≤ r ∧ r < i + 1 + k
      · have c2 : i ≤ r ∧ r < i + (k + 1) := by omega
        rw [if_pos c, if_pos c2]
      · have c2 : ¬ (i ≤ r ∧ r < i + (k + 1)) := by omega
        rw [if_neg c, if_neg c2]

/-- C8. With I + x <= 4095, executing FX55 sets memory[I+i] = Vi for every i in
0..x, changes no other memory byte and no register, and adds x + 1 to I;
executing FX65 sets Vi = memory[I+i] for every i in 0..x, changes no register
above x and no memory byte, and adds x + 1 to I. -/
theorem store_regs_load_regs (h : Host) (s : State) (hs : s.WF) (x : Nat) (hx : x < 16)
    (hI : s.index_register + x ≤ 4095) :
    (∃ s1, execute_instruction h s (0xF055 + x * 256) = some s1 ∧
      (∀ i, i ≤ x → s1.memory (s.index_register + i) = s.registers i) ∧
      (∀ a, (a < s.index_register ∨ s.index_register + x < a) → s1.memory a = s.memory a) ∧
      s1.registers = s.registers ∧
      s1.index_register = s.index_register + (x + 1)) ∧
    (∃ s2, execute_instruction h s (0xF065 + x * 256) = some s2 ∧
      (∀ i, i ≤ x → s2.registers i = s.memory (s.index_register + i)) ∧
      (∀ k, x < k → s2.registers k = s.registers k) ∧
      s2.memory = s.memory ∧
      s2.index_register = s.index_register + (x + 1)) := by
  have e1 : 0xF055 + x * 256 = 0xF000 + x * 256 + 0x55 := by omega
  have e2 : 0xF065 + x * 256 = 0xF000 + x * 256 + 0x65 := by omega
  have a2 : (0xF000 + x * 256 + 0x55) / 256 % 16 = x := by omega
  have a3 : (0xF000 + x * 256 + 0x55) % 256 = 0x55 := by omega
  have b2 : (0xF000 + x * 256 + 0x65) / 256 % 16 = x := by omega
  have b3 : (0xF000 + x * 256 + 0x65) % 256 = 0x65 := by omega
  have hnew : (s.index_register + (x + 1)) % 65536 = s.index_register + (x + 1) := by omega
  have hex1 : execute_instruction h s (0xF055 + x * 256) = some { s with
      memory := fun a =>
        if s.index_register + 0 ≤ a ∧ a < s.index_register + 0 + (x + 1)
        then s.registers (a - s.index_register) else s.memory a
      index_register := s.index_register + (x + 1) } := by
    rw [e1, execute_instruction_F h s hx (by omega)]
    simp only [execute_F, and_0xFF, a3, NIBBLE_2, a2]
    rw [store_loop_eq (x + 1) 0 s (by omega) hs.registers_lt]
    simp only [hnew]
  have hex2 : execute_instruction h s (0xF065 + x * 256) = some { s with
      registers := fun r =>
        if 0 ≤ r ∧ r < 0 + (x + 1) then s.memory (s.index_register + r) else s.registers r
      index_register := s.index_register + (x + 1) } := by
    rw [e2, execute_instruction_F h s hx (by omega)]
    simp only [execute_F, and_0xFF, b3, NIBBLE_2, b2]
    rw [load_loop_eq (x + 1) 0 s (by omega) hs.memory_lt]
    simp only [hnew]
  constructor
  · refine ⟨_, hex1, ?_, ?_, rfl, rfl⟩
    · intro i hi
      have c : s.index_register + 0 ≤ s.index_register + i ∧
          s.index_register + i < s.index_register + 0 + (x + 1) := by omega
      dsimp only
      rw [if_pos c, Nat.add_sub_cancel_left]
    · intro a ha
      have c : ¬ (s.index_register + 0 ≤ a ∧ a < s.index_register + 0 + (x + 1)) := by omega
      dsimp only
      rw [if_neg c]
  · refine ⟨_, hex2, ?_, ?_, rfl, rfl⟩
    · intro i hi
      have c : 0 ≤ i ∧ i < 0 + (x + 1) := by omega
      dsimp only
      rw [if_pos c]
    · intro k hk
      have c : ¬ (0 ≤ k ∧ k < 0 + (x + 1)) := by omega
      dsimp only
      rw [if_neg c]

/-- Instance of C8 at x = 3: four bytes move and I grows by 4. -/
theorem store_regs_load_regs_witness :
    (∃ s1, execute_instruction host_open sample (0xF055 + 3 * 256) = some s1 ∧
      (∀ i, i ≤ 3 → s1.memory (sample.index_register + i) = sample.registers i) ∧
      (∀ a, (a < sample.index_register ∨ sample.index_register + 3 < a) →
        s1.memory a = sample.memory a) ∧
      s1.registers = sample.registers ∧
      s1.index_register = sample.index_register + (3 + 1)) ∧
    (∃ s2, execute_instruction host_open sample (0xF065 + 3 * 256) = some s2 ∧
      (∀ i, i ≤ 3 → s2.registers i = sample.memory (sample.index_register + i)) ∧
      (∀ k, 3 < k → s2.registers k = sample.registers k) ∧
      s2.memory = sample.memory ∧
      s2.index_register = sample.index_register + (3 + 1)) :=
  store_regs_load_regs host_open sample sample_WF 3 (by decide) (by decide)

/-! ## Fetch from given bytes -/

/-- Bytes `hi`, `lo` combine to `hi * 256 + lo` under `(hi << 8) | lo`. -/
theorem shl8_or (hi lo : Nat) (hhi : hi < 256) (hlo : lo < 256) :
    (hi <<< 8) % 65536 ||| lo = hi * 256 + lo := by
  have e : (hi <<< 8) % 65536 = 2 ^ 8 * hi := by
    rw [Nat.shiftLeft_eq]; omega
  rw [e, ← Nat.mul_add_lt_is_or (by simpa using hlo) hi]
  omega

/-- With `pc = memory + a` and both bytes inside memory, `fetch` returns the
big-endian word at `a` and advances `pc` by 2. -/
theorem fetch_at (s : State) (a : Nat) (hpc : s.pc = (a : Int)) (ha : a + 1 < 4096)
    (h0 : s.memory a < 256) (h1 : s.memory (a + 1) < 256) :
    fetch s = some (s.memory a * 256 + s.memory (a + 1), { s with pc := s.pc + 2 }) := by
  have p0 : (0 : Int) ≤ (a : Int) := by omega
  have p1 : (0 : Int) ≤ (a : Int) + 1 := by omega
  have t1 : ((a : Int) + 1).toNat = a + 1 := by omega
  have b0 : a < 4096 := by omega
  simp only [fetch, deref, hpc, p0, p1, if_true, Int.toNat_natCast, t1, mem_read, b0, ha,
    shl8_or _ _ h0 h1]

/-! ## Two cycles: set-const then add-const -/

/-- C9. If memory at PC..PC+3 holds 6Xnn 7Xmm, two cycles leave
Vx = (nn + mm) mod 256, the program counter 4 past its start, and every other
register as it was. -/
theorem set_then_add_two_cycles (h1 h2 : Host) (s : State) (x nn mm a : Nat)
    (hx : x < 16) (hnn : nn < 256) (hmm : mm < 256)
    (hpc : s.pc = (a : Int)) (ha : a + 3 ≤ 4095)
    (m0 : s.memory a = 0x60 + x) (m1 : s.memory (a + 1) = nn)
    (m2 : s.memory (a + 2) = 0x70 + x) (m3 : s.memory (a + 3) = mm) :
    ∃ s1 s2, cycle h1 s = some s1 ∧ cycle h2 s1 = some s2 ∧
      s2.registers x = (nn + mm) % 256 ∧ s2.pc = s.pc + 4 ∧
      (∀ k, k ≠ x → s2.registers k = s.registers k) := by
  have n1 : ((0x60 + x) * 256 + nn) / 4096 % 16 = 6 := by omega
  have n2 : ((0x60 + x) * 256 + nn) / 256 % 16 = x := by omega
  have n3 : ((0x60 + x) * 256 + nn) % 256 = nn := by omega
  have k1 : ((0x70 + x) * 256 + mm) / 4096 % 16 = 7 := by omega
  have k2 : ((0x70 + x) * 256 + mm) / 256 % 16 = x := by omega
  have k3 : ((0x70 + x) * 256 + mm) % 256 = mm := by omega
  have c1 : cycle h1 s = some (({ s with pc := s.pc + 2 } : State).set_reg x nn) := by
    simp only [cycle, fetch_at s a hpc (by omega) (by omega) (by omega), m0, m1,
      execute_instruction, NIBBLE_1, n1, NIBBLE_2, n2, and_0xFF, n3]
  let s1 : State := ({ s with pc := s.pc + 2 } : State).set_reg x nn
  have hpc1 : s1.pc = ((a + 2 : Nat) : Int) := by
    show s.pc + 2 = ((a + 2 : Nat) : Int)
    rw [hpc]; push_cast; rfl
  have c2 : cycle h2 s1 =
      some (({ s1 with pc := s1.pc + 2 } : State).set_reg x (s1.registers x + mm)) := by
    have f := fetch_at s1 (a + 2) hpc1 (by omega)
      (by show s.memory (a + 2) < 256; omega) (by show s.memory (a + 3) < 256; omega)
    have e2 : s1.memory (a + 2) = 0x70 + x := m2
    have e3 : s1.memory (a + 2 + 1) = mm := m3
    simp only [cycle, f, e2, e3, execute_instruction, NIBBLE_1, k1, NIBBLE_2, k2, and_0xFF, k3]
  refine ⟨s1, _, c1, c2, ?_, ?_, ?_⟩
  · show put (put s.registers x (nn % 256)) x ((put s.registers x (nn % 256) x + mm) % 256) x =
      (nn + mm) % 256
    rw [put_same, put_same]
    omega
  · show s.pc + 2 + 2 = s.pc + 4
    omega
  · intro k hk
    show put (put s.registers x (nn % 256)) x ((put s.registers x (nn % 256) x + mm) % 256) k =
      s.registers k
    rw [put_other _ _ _ _ hk, put_other _ _ _ _ hk]

/-- Instance of C9 on the sample machine, whose memory at 512 holds 60 05 70 03:
V0 ends as 8. -/
theorem set_then_add_two_cycles_witness :
    (sample.pc = ((512 : Nat) : Int) ∧ sample.memory 512 = 0x60 + 0 ∧
      sample.memory (512 + 1) = 5 ∧ sample.memory (512 + 2) = 0x70 + 0 ∧
      sample.memory (512 + 3) = 3) ∧
    ∃ s1 s2, cycle host_open sample = some s1 ∧ cycle host_open s1 = some s2 ∧
      s2.registers 0 = (5 + 3) % 256 ∧ s2.pc = sample.pc + 4 ∧
      (∀ k, k ≠ 0 → s2.registers k = sample.registers k) :=
  ⟨⟨by decide, by decide, by decide, by decide, by decide⟩,
    set_then_add_two_cycles host_open host_open sample 0 5 3 512 (by decide) (by decide)
      (by decide) (by decide) (by decide) (by decide) (by decide) (by decide) (by decide)⟩

/-! ## Drawing -/

/-- The test `(row >> (7 - i)) & 0x1` of the draw loop is bit `7 - i` of `row`. -/
theorem sprite_bit_iff (row i : Nat) :
    (row >>> (7 - i)) &&& 0x1 ≠ 0 ↔ row.testBit (7 - i) = true := by
  simp [Nat.testBit, Nat.and_comm]

/-- The inner draw loop, started at column index `i` with `k` iterations to
go, returns; it leaves memory and the index register alone and flips exactly
the pixels of row `y + j` in columns `x + i .. x + i + k - 1` that are on the
screen and whose sprite bit is set. -/
theorem draw_cols_spec (row x y j : Nat) (hy : y + j < 32) (k : Nat) :
    ∀ (i : Nat) (st : State), ∃ st1, draw_cols row x y j k i st = some st1 ∧
      st1.memory = st.memory ∧ st1.index_register = st.index_register ∧
      ∀ a b, st1.display a b =
        if b = y + j ∧ x + i ≤ a ∧ a < x + i + k ∧ a < 64 ∧ row.testBit (7 - (a - x)) = true
        then !st.display a b else st.display a b := by
  induction k with
  | zero =>
    intro i st
    refine ⟨st, rfl, rfl, rfl, ?_⟩
    intro a b
    have c : ¬ (b = y + j ∧ x + i ≤ a ∧ a < x + i + 0 ∧ a < 64 ∧
        row.testBit (7 - (a - x)) = true) := by omega
    rw [if_neg c]
  | succ k ih =>
    intro i st
    by_cases hc : x + i < 64
    · by_cases hbit : (row >>> (7 - i)) &&& 0x1 ≠ 0
      · have htb : row.testBit (7 - i) = true := (sprite_bit_iff row i).1 hbit
        have hin : x + i < WIDTH ∧ y + j < HEIGHT := ⟨hc, hy⟩
        have key : ∀ st2 : State, st2.memory = st.memory →
            st2.index_register = st.index_register →
            st2.display = put2 st.display (x + i) (y + j) (!st.display (x + i) (y + j)) →
            ∃ st1, draw_cols row x y j k (i + 1) st2 = some st1 ∧
              st1.memory = st.memory ∧ st1.index_register = st.index_register ∧
              ∀ a b, st1.display a b =
                if b = y + j ∧ x + i ≤ a ∧ a < x + i + (k + 1) ∧ a < 64 ∧
                  row.testBit (7 - (a - x)) = true
                then !st.display a b else st.display a b := by
          intro st2 e1 e2 e3
          obtain ⟨st1, h1, hm, hI, hd⟩ := ih (i + 1) st2
          refine ⟨st1, h1, hm.trans e1, hI.trans e2, ?_⟩
          intro a b
          rw [hd a b, e3]
          by_cases hab : a = x + i ∧ b = y + j
          · obtain ⟨rfl, rfl⟩ := hab
            have c1 : ¬ (y + j = y + j ∧ x + (i + 1) ≤ x + i ∧ x + i < x + (i + 1) + k ∧
                x + i < 64 ∧ row.testBit (7 - (x + i - x)) = true) := by omega
            have c2 : y + j = y + j ∧ x + i ≤ x + i ∧ x + i < x + i + (k + 1) ∧
                x + i < 64 ∧ row.testBit (7 - (x + i - x)) = true := by
              refine ⟨rfl, le_refl _, by omega, hc, ?_⟩
              rw [Nat.add_sub_cancel_left]; exact htb
            rw [if_neg c1, if_pos c2]
            simp [put2]
          · have hp : put2 st.display (x + i) (y + j) (!st.display (x + i) (y + j)) a b =
                st.display a b := by simp [put2, hab]
            rw [hp]
            by_cases c : b = y + j ∧ x + (i + 1) ≤ a ∧ a < x + (i + 1) + k ∧ a < 64 ∧
                row.testBit (7 - (a - x)) = true
            · have c2 : b = y + j ∧ x + i ≤ a ∧ a < x + i + (k + 1) ∧ a < 64 ∧
                  row.testBit (7 - (a - x)) = true :=
                ⟨c.1, by omega, by omega, c.2.2.2.1, c.2.2.2.2⟩
              rw [if_pos c, if_pos c2]
            · have c2 : ¬ (b = y + j ∧ x + i ≤ a ∧ a < x + i + (k + 1) ∧ a < 64 ∧
                  row.testBit (7 - (a - x)) = true) := by
                rintro ⟨e1, e2, e3, e4, e5⟩
                exact c ⟨e1, by omega, by omega, e4, e5⟩
              rw [if_neg c, if_neg c2]
        rw [draw_cols, if_pos hc, if_pos hbit]
        simp only [toggle_pixel, if_pos hin]
        apply key
        · split <;> rfl
        · split <;> rfl
        · split <;> rfl
      · have htb : ¬ row.testBit (7 - i) = true := fun e => hbit ((sprite_bit_iff row i).2 e)
        obtain ⟨st1, h1, hm, hI, hd⟩ := ih (i + 1) st
        refine ⟨st1, ?_, hm, hI, ?_⟩
        · simp only [draw_cols, hc, if_true, hbit, if_false]
          exact h1
        · intro a b
          rw [hd a b]
          by_cases c : b = y + j ∧ x + (i + 1) ≤ a ∧ a < x + (i + 1) + k ∧ a < 64 ∧
              row.testBit (7 - (a - x)) = true
          · have c2 : b = y + j ∧ x + i ≤ a ∧ a < x + i + (k + 1) ∧ a < 64 ∧
                row.testBit (7 - (a - x)) = true :=
              ⟨c.1, by omega, by omega, c.2.2.2.1, c.2.2.2.2⟩
            rw [if_pos c, if_pos c2]
          · have c2 : ¬ (b = y + j ∧ x + i ≤ a ∧ a < x + i + (k + 1) ∧ a < 64 ∧
                row.testBit (7 - (a - x)) = true) := by
              rintro ⟨e1, e2, e3, e4, e5⟩
              by_cases hai : a = x + i
              · subst hai
                rw [Nat.add_sub_cancel_left] at e5
                exact htb e5
              · exact c ⟨e1, by omega, by omega, e4, e5⟩
            rw [if_neg c, if_neg c2]
    · refine ⟨st, ?_, rfl, rfl, ?_⟩
      · simp only [draw_cols, hc, if_false]
      · intro a b
        have c : ¬ (b = y + j ∧ x + i ≤ a ∧ a < x + i + (k + 1) ∧ a < 64 ∧
            row.testBit (7 - (a - x)) = true) := by omega
        rw [if_neg c]

/-- The outer draw loop, started at sprite row `j` with `k` rows to go,
returns when the sprite bytes it reads lie inside memory; it leaves memory
and the index register alone and flips exactly the pixels of rows
`y + j .. y + j + k - 1`, columns `x .. x + 7`, that are on the screen and
whose sprite bit is set. -/
theorem draw_rows_spec (x y : Nat) (k : Nat) :
    ∀ (j : Nat) (st : State),
      (∀ j1, j ≤ j1 → j1 < j + k → st.index_register + j1 < 4096) →
      ∃ st1, draw_rows x y k j st = some st1 ∧
        st1.memory = st.memory ∧ st1.index_register = st.index_register ∧
        ∀ a b, st1.display a b =
          if y + j ≤ b ∧ b < y + j + k ∧ b < 32 ∧ x ≤ a ∧ a < x + 8 ∧ a < 64 ∧
            (st.memory (st.index_register + (b - y))).testBit (7 - (a - x)) = true
          then !st.display a b else st.display a b := by
  induction k with
  | zero =>
    intro j st _
    refine ⟨st, rfl, rfl, rfl, ?_⟩
    intro a b
    have c : ¬ (y + j ≤ b ∧ b < y + j + 0 ∧ b < 32 ∧ x ≤ a ∧ a < x + 8 ∧ a < 64 ∧
        (st.memory (st.index_register + (b - y))).testBit (7 - (a - x)) = true) := by omega
    rw [if_neg c]
  | succ k ih =>
    intro j st hmem
    by_cases hc : y + j < 32
    · have hb : st.index_register + j < MEMORY_SIZE := hmem j (le_refl _) (by omega)
      obtain ⟨st1, h1, hm1, hI1, hd1⟩ :=
        draw_cols_spec (st.memory (st.index_register + j)) x y j hc 8 0 st
      obtain ⟨st2, h2, hm2, hI2, hd2⟩ := ih (j + 1) st1 (by
        intro j1 l1 l2
        rw [hI1]
        exact hmem j1 (by omega) (by omega))
      refine ⟨st2, ?_, hm2.trans hm1, hI2.trans hI1, ?_⟩
      · rw [draw_rows, if_pos hc]
        simp only [mem_read, if_pos hb, h1, h2]
      · intro a b
        rw [hd2 a b, hd1 a b, hm1, hI1]
        by_cases hbj : b = y + j
        · subst hbj
          have c2 : ¬ (y + (j + 1) ≤ y + j ∧ y + j < y + (j + 1) + k ∧ y + j < 32 ∧ x ≤ a ∧
              a < x + 8 ∧ a < 64 ∧
              (st.memory (st.index_register + (y + j - y))).testBit (7 - (a - x)) = true) := by
            omega
          rw [if_neg c2, Nat.add_sub_cancel_left]
          by_cases c : y + j = y + j ∧ x + 0 ≤ a ∧ a < x + 0 + 8 ∧ a < 64 ∧
              (st.memory (st.index_register + j)).testBit (7 - (a - x)) = true
          · have c3 : y + j ≤ y + j ∧ y + j < y + j + (k + 1) ∧ y + j < 32 ∧ x ≤ a ∧
                a < x + 8 ∧ a < 64 ∧
                (st.memory (st.index_register + j)).testBit (7 - (a - x)) = true :=
              ⟨le_refl _, by omega, hc, by omega, by omega, c.2.2.2.1, c.2.2.2.2⟩
            rw [if_pos c, if_pos c3]
          · have c3 : ¬ (y + j ≤ y + j ∧ y + j < y + j + (k + 1) ∧ y + j < 32 ∧ x ≤ a ∧
                a < x + 8 ∧ a < 64 ∧
                (st.memory (st.index_register + j)).testBit (7 - (a - x)) = true) := by
              rintro ⟨_, _, _, e4, e5, e6, e7⟩
              exact c ⟨rfl, by omega, by omega, e6, e7⟩
            rw [if_neg c, if_neg c3]
        · have c1 : ¬ (b = y + j ∧ x + 0 ≤ a ∧ a < x + 0 + 8 ∧ a < 64 ∧
              (st.memory (st.index_register + j)).testBit (7 - (a - x)) = true) :=
            fun e => hbj e.1
          rw [if_neg c1]
          by_cases c : y + (j + 1) ≤ b ∧ b < y + (j + 1) + k ∧ b < 32 ∧ x ≤ a ∧ a < x + 8 ∧
              a < 64 ∧ (st.memory (st.index_register + (b - y))).testBit (7 - (a - x)) = true
          · have c3 : y + j ≤ b ∧ b < y + j + (k + 1) ∧ b < 32 ∧ x ≤ a ∧ a < x + 8 ∧
                a < 64 ∧
                (st.memory (st.index_register + (b - y))).testBit (7 - (a - x)) = true :=
              ⟨by omega, by omega, c.2.2.1, c.2.2.2.1, c.2.2.2.2.1, c.2.2.2.2.2.1,
                c.2.2.2.2.2.2⟩
            rw [if_pos c, if_pos c3]
          · have c3 : ¬ (y + j ≤ b ∧ b < y + j + (k + 1) ∧ b < 32 ∧ x ≤ a ∧ a < x + 8 ∧
                a < 64 ∧
                (st.memory (st.index_register + (b - y))).testBit (7 - (a - x)) = true) := by
              rintro ⟨e1, e2, e3, e4, e5, e6, e7⟩
              exact c ⟨by omega, by omega, e3, e4, e5, e6, e7⟩
            rw [if_neg c, if_neg c3]
    · refine ⟨st, ?_, rfl, rfl, ?_⟩
      · rw [draw_rows, if_neg hc]
      · intro a b
        have c : ¬ (y + j ≤ b ∧ b < y + j + (k + 1) ∧ b < 32 ∧ x ≤ a ∧ a < x + 8 ∧ a < 64 ∧
            (st.memory (st.index_register + (b - y))).testBit (7 - (a - x)) = true) := by
          omega
        rw [if_neg c]

/-- C10. A DXYN executed while the frame window is open, with X = Vx mod 64,
Y = Vy mod 32 and I + n - 1 <= 4095, changes exactly the pixels (X+i, Y+j)
with i < 8, j < n, X+i < 64, Y+j < 32 and bit 7-i of memory[I+j] set; every
other pixel keeps its state.  Drawn at origin (60, 0), a sprite changes only
pixels in columns 60..63. -/
theorem draw_clips (h : Host) (hopen : h.frame_drawn = true) (s : State) (x y n : Nat)
    (hx : x < 16) (hy : y < 16) (hn : n < 16) (hI : s.index_register + n - 1 ≤ 4095) :
    ∃ s1, execute_instruction h s (word 0xD x y n) = some s1 ∧
      (∀ px py, s1.display px py ≠ s.display px py ↔
        ∃ i j, i < 8 ∧ j < n ∧ px = s.registers x % 64 + i ∧ py = s.registers y % 32 + j ∧
          s.registers x % 64 + i < 64 ∧ s.registers y % 32 + j < 32 ∧
          (s.memory (s.index_register + j)).testBit (7 - i) = true) ∧
      (s.registers x % 64 = 60 → s.registers y % 32 = 0 →
        ∀ px py, s1.display px py ≠ s.display px py → 60 ≤ px ∧ px ≤ 63) := by
  have eX : (s.registers x &&& 63) % 256 = s.registers x % 64 := by
    rw [Nat.and_pow_two_sub_one_eq_mod _ 6]; omega
  have eY : (s.registers y &&& 31) % 256 = s.registers y % 32 := by
    rw [Nat.and_pow_two_sub_one_eq_mod _ 5]; omega
  obtain ⟨s1, h1, -, -, hd⟩ := draw_rows_spec (s.registers x % 64) (s.registers y % 32) n 0
    (s.set_reg 15 0) (by
      intro j1 _ l2
      show s.index_register + j1 < 4096
      omega)
  simp only [set_reg_memory, set_reg_index, set_reg_display] at hd
  have hex : execute_instruction h s (word 0xD x y n) = some s1 := by
    have n1 : NIBBLE (word 0xD x y n) 1 = 0xD := NIBBLE_1_word (by omega) hx hy hn
    simp only [execute_instruction, n1, execute_D, hopen, NIBBLE_2_word hx hy hn,
      NIBBLE_3_word hy hn, NIBBLE_4_word hn, eX, eY]
    exact h1
  have hchar : ∀ px py, s1.display px py ≠ s.display px py ↔
      ∃ i j, i < 8 ∧ j < n ∧ px = s.registers x % 64 + i ∧ py = s.registers y % 32 + j ∧
        s.registers x % 64 + i < 64 ∧ s.registers y % 32 + j < 32 ∧
        (s.memory (s.index_register + j)).testBit (7 - i) = true := by
    intro px py
    rw [hd px py]
    constructor
    · intro hne
      by_cases c : s.registers y % 32 + 0 ≤ py ∧ py < s.registers y % 32 + 0 + n ∧ py < 32 ∧
          s.registers x % 64 ≤ px ∧ px < s.registers x % 64 + 8 ∧ px < 64 ∧
          (s.memory (s.index_register + (py - s.registers y % 32))).testBit
            (7 - (px - s.registers x % 64)) = true
      · obtain ⟨e1, e2, e3, e4, e5, e6, e7⟩ := c
        exact ⟨px - s.registers x % 64, py - s.registers y % 32, by omega, by omega,
          by omega, by omega, by omega, by omega, e7⟩
      · rw [if_neg c] at hne
        exact absurd rfl hne
    · rintro ⟨i, j, hi, hj, rfl, rfl, hxi, hyj, hbit⟩
      have c : s.registers y % 32 + 0 ≤ s.registers y % 32 + j ∧
          s.registers y % 32 + j < s.registers y % 32 + 0 + n ∧
          s.registers y % 32 + j < 32 ∧
          s.registers x % 64 ≤ s.registers x % 64 + i ∧
          s.registers x % 64 + i < s.registers x % 64 + 8 ∧ s.registers x % 64 + i < 64 ∧
          (s.memory (s.index_register + (s.registers y % 32 + j - s.registers y % 32))).testBit
            (7 - (s.registers x % 64 + i - s.registers x % 64)) = true := by
        refine ⟨by omega, by omega, hyj, by omega, by omega, hxi, ?_⟩
        rw [Nat.add_sub_cancel_left, Nat.add_sub_cancel_left]
        exact hbit
      rw [if_pos c]
      cases s.display (s.registers x % 64 + i) (s.registers y % 32 + j) <;> decide
  refine ⟨s1, hex, hchar, ?_⟩
  intro hX hY px py hne
  obtain ⟨i, j, hi, hj, rfl, rfl, hxi, hyj, -⟩ := (hchar px py).1 hne
  omega

/-- Instance of C10: the sprite `FF 81` at I = 768 drawn at (V4, V0) = (60, 0). -/
theorem draw_clips_witness :
    (host_open.frame_drawn = true ∧ sample.index_register + 2 - 1 ≤ 4095 ∧
      sample.registers 4 % 64 = 60 ∧ sample.registers 0 % 32 = 0) ∧
    ∃ s1, execute_instruction host_open sample (word 0xD 4 0 2) = some s1 ∧
      (∀ px py, s1.display px py ≠ sample.display px py ↔
        ∃ i j, i < 8 ∧ j < 2 ∧ px = sample.registers 4 % 64 + i ∧
          py = sample.registers 0 % 32 + j ∧
          sample.registers 4 % 64 + i < 64 ∧ sample.registers 0 % 32 + j < 32 ∧
          (sample.memory (sample.index_register + j)).testBit (7 - i) = true) ∧
      (∀ px py, s1.display px py ≠ sample.display px py → 60 ≤ px ∧ px ≤ 63) :=
  ⟨⟨rfl, by decide, by decide, by decide⟩,
    match draw_clips host_open rfl sample 4 0 2 (by decide) (by decide) (by decide)
      (by decide) with
    | ⟨s1, h1, h2, h3⟩ => ⟨s1, h1, h2, h3 (by decide) (by decide)⟩⟩

/-! ## Deferred draw -/

/-- Adding 2 to `pc` and taking it off again gives the machine back. -/
theorem pc_add_sub (s : State) : ({ ({ s with pc := s.pc + 2 } : State) with
    pc := ({ s with pc := s.pc + 2 } : State).pc - 2 } : State) = s := by
  cases s
  simp

/-- C12. When the frame window is not open, a cycle that fetches DXYN gives
the machine back as it was: the program counter is again the address of the
DXYN, and no register, pixel, memory byte, index register, stack entry or
timer has changed. -/
theorem draw_deferred (h : Host) (hclosed : h.frame_drawn = false) (s : State) (x y n : Nat)
    (hx : x < 16) (hy : y < 16) (hn : n < 16) (hf : fetched s = some (word 0xD x y n)) :
    cycle h s = some s := by
  rw [cycle_of_fetched h hf]
  have n1 : NIBBLE (word 0xD x y n) 1 = 0xD := NIBBLE_1_word (by omega) hx hy hn
  simp only [execute_instruction, n1, execute_D, hclosed]
  exact congrArg some (pc_add_sub s)

/-- Instance of C12: `D402` on the sample machine with the frame window closed. -/
theorem draw_deferred_witness :
    (host_closed.frame_drawn = false ∧ fetched sample_draw = some (word 0xD 4 0 2)) ∧
    cycle host_closed sample_draw = some sample_draw :=
  ⟨⟨rfl, by decide⟩,
    draw_deferred host_closed rfl sample_draw 4 0 2 (by decide) (by decide) (by decide)
      (by decide)⟩

/-! ## Wait for a key -/

/-- Function `key_pressed` with no key latched returns false and changes nothing. -/
theorem key_pressed_empty (s : State) (x : Nat) (hk : s.key_up = NO_KEY) :
    key_pressed s x = (s, false) := by
  simp [key_pressed, hk]

/-- Function `key_pressed` with a key latched stores it, empties the latch and
returns true. -/
theorem key_pressed_latched (s : State) (x : Nat) (hk : s.key_up ≠ NO_KEY) :
    key_pressed s x =
      ({ s with registers := put s.registers x s.key_up, key_up := NO_KEY }, true) := by
  simp [key_pressed, hk]

/-- C13. In a cycle that fetches FX0A: if no released key is latched
(`key_up = NO_KEY`), the machine is given back as it was, the program counter
again at the FX0A; if key code k in 0..15 is latched, Vx becomes k, every
other register keeps its value, the program counter is 2 further, the latch is
empty, and a cycle that then fetches another FX0A gives the machine back as
it was. -/
theorem wait_key_FX0A (h : Host) (s : State) (x : Nat) (hx : x < 16)
    (hf : fetched s = some (0xF00A + x * 256)) :
    (s.key_up = NO_KEY → cycle h s = some s) ∧
    (∀ k, k < 16 → s.key_up = k →
      ∃ s1, cycle h s = some s1 ∧ s1.registers x = k ∧
        (∀ r, r ≠ x → s1.registers r = s.registers r) ∧
        s1.pc = s.pc + 2 ∧ s1.key_up = NO_KEY ∧ s1.memory = s.memory ∧
        ∀ (h2 : Host) (x2 : Nat), x2 < 16 → fetched s1 = some (0xF00A + x2 * 256) →
          cycle h2 s1 = some s1) := by
  have key : ∀ (h : Host) (s : State) (x : Nat), x < 16 →
      fetched s = some (0xF00A + x * 256) → s.key_up = NO_KEY → cycle h s = some s := by
    intro h s x hx hf hk
    have e : 0xF00A + x * 256 = 0xF000 + x * 256 + 0x0A := by omega
    have n3 : (0xF000 + x * 256 + 0x0A) % 256 = 0xA := by omega
    rw [cycle_of_fetched h hf, e, execute_instruction_F h _ hx (by omega)]
    simp only [execute_F, and_0xFF, n3]
    rw [key_pressed_empty { s with pc := s.pc + 2 } _ hk]
    exact congrArg some (pc_add_sub s)
  refine ⟨key h s x hx hf, ?_⟩
  intro k hk hlatch
  have e : 0xF00A + x * 256 = 0xF000 + x * 256 + 0x0A := by omega
  have n2 : (0xF000 + x * 256 + 0x0A) / 256 % 16 = x := by omega
  have n3 : (0xF000 + x * 256 + 0x0A) % 256 = 0xA := by omega
  have hne : s.key_up ≠ NO_KEY := by
    show s.key_up ≠ 16
    omega
  have hc : cycle h s = some { s with
      pc := s.pc + 2
      registers := put s.registers x s.key_up
      key_up := NO_KEY } := by
    rw [cycle_of_fetched h hf, e, execute_instruction_F h _ hx (by omega)]
    simp only [execute_F, and_0xFF, n3, NIBBLE_2, n2]
    rw [key_pressed_latched { s with pc := s.pc + 2 } _ hne]
    rfl
  refine ⟨_, hc, ?_, ?_, rfl, rfl, rfl, ?_⟩
  · show put s.registers x s.key_up x = k
    rw [put_same, hlatch]
  · intro r hr
    exact put_other _ _ _ _ hr
  · intro h2 x2 hx2 hf2
    exact key h2 _ x2 hx2 hf2 rfl

/-- Instance of C13: `F50A` on the sample machine without and with a released
key 7. -/
theorem wait_key_FX0A_witness :
    (fetched sample_wait = some (0xF00A + 5 * 256) ∧ sample_wait.key_up = NO_KEY ∧
      cycle host_open sample_wait = some sample_wait) ∧
    (fetched sample_wait7 = some (0xF00A + 5 * 256) ∧ sample_wait7.key_up = 7 ∧
      ∃ s1, cycle host_open sample_wait7 = some s1 ∧ s1.registers 5 = 7 ∧
        (∀ r, r ≠ 5 → s1.registers r = sample_wait7.registers r) ∧
        s1.pc = sample_wait7.pc + 2 ∧ s1.key_up = NO_KEY ∧ s1.memory = sample_wait7.memory ∧
        ∀ (h2 : Host) (x2 : Nat), x2 < 16 → fetched s1 = some (0xF00A + x2 * 256) →
          cycle h2 s1 = some s1) :=
  ⟨⟨by decide, rfl,
      (wait_key_FX0A host_open sample_wait 5 (by decide) (by decide)).1 rfl⟩,
    ⟨by decide, rfl,
      (wait_key_FX0A host_open sample_wait7 5 (by decide) (by decide)).2 7 (by decide) rfl⟩⟩

/-! ## Return -/

/-- C16, amended. Executing 00EE on an empty call stack has no defined result
(it reads the slot before `stack`); on a stack of 1..16 entries it sets the
program counter to the entry saved last, lowers the depth by one and leaves
everything else as it was. -/
theorem return_pops (h : Host) (s : State) :
    (s.stack_ptr = 0 → execute_instruction h s 0x00EE = none) ∧
    (0 < s.stack_ptr → s.stack_ptr ≤ 16 →
      execute_instruction h s 0x00EE =
        some { s with stack_ptr := s.stack_ptr - 1, pc := s.stack (s.stack_ptr - 1) }) := by
  have h0 : NIBBLE 0xEE 1 = 0 := by decide
  constructor
  · intro h1
    simp [execute_instruction, h0, h1]
  · intro h1 h2
    have h3 : s.stack_ptr - 1 < 16 := by omega
    simp [execute_instruction, h0, h1, h3]

/-- C16 as stated fails: the sample machine has an empty call stack, and
executing 00EE there is not a no-op: it has no defined result. -/
theorem return_on_empty_stack :
    sample.stack_ptr = 0 ∧ execute_instruction host_open sample 0x00EE = none :=
  ⟨rfl, rfl⟩

/-! ## Timers -/

/-- C18. The timer block sets each timer to its value minus 1 if it was not 0
and leaves it at 0 otherwise, each by its own test; it calls `play_beep`
exactly when the sound timer was not 0 before; registers, memory, index
register, program counter and the stack are as before. -/
theorem timer_tick (s : State) :
    (timer_action s).1.delay_timer = (if s.delay_timer = 0 then 0 else s.delay_timer - 1) ∧
    (timer_action s).1.sound_timer = (if s.sound_timer = 0 then 0 else s.sound_timer - 1) ∧
    ((timer_action s).2 = true ↔ s.sound_timer ≠ 0) ∧
    (timer_action s).1.registers = s.registers ∧ (timer_action s).1.memory = s.memory ∧
    (timer_action s).1.index_register = s.index_register ∧ (timer_action s).1.pc = s.pc ∧
    (timer_action s).1.stack = s.stack ∧ (timer_action s).1.stack_ptr = s.stack_ptr := by
  unfold timer_action
  by_cases hs : s.sound_timer = 0 <;> by_cases hd : s.delay_timer = 0 <;>
    simp [hs, hd, Nat.pos_iff_ne_zero]

/-! ## Add to the index register -/

/-- C20. Executing FX1E sets the index register to (I + Vx) mod 65536 and
register 15 to 1 if the new index register is above 0xFFF and to 0 otherwise;
when x is not 15, Vx keeps its value; memory is unchanged. -/
theorem add_index_FX1E (h : Host) (s : State) (x : Nat) (hx : x < 16) :
    ∃ s1, execute_instruction h s (0xF01E + x * 256) = some s1 ∧
      s1.index_register = (s.index_register + s.registers x) % 65536 ∧
      s1.registers 15 = (if s1.index_register > 0xFFF then 1 else 0) ∧
      (s1.registers 15 = 1 ↔ s1.index_register > 0xFFF) ∧
      (x ≠ 15 → s1.registers x = s.registers x) ∧ s1.memory = s.memory := by
  have e : 0xF01E + x * 256 = 0xF000 + x * 256 + 0x1E := by omega
  have n2 : (0xF000 + x * 256 + 0x1E) / 256 % 16 = x := by omega
  have n3 : (0xF000 + x * 256 + 0x1E) % 256 = 0x1E := by omega
  have hex : execute_instruction h s (0xF01E + x * 256) =
      some (({ s with index_register := (s.index_register + s.registers x) % 65536 } :
        State).set_reg 15
          (ofBool (decide ((s.index_register + s.registers x) % 65536 > 0xFFF)))) := by
    rw [e, execute_instruction_F h s hx (by omega)]
    simp only [execute_F, and_0xFF, n3, NIBBLE_2, n2]
  have hflag : ofBool (decide ((s.index_register + s.registers x) % 65536 > 0xFFF)) % 256 =
      (if (s.index_register + s.registers x) % 65536 > 0xFFF then 1 else 0) := by
    by_cases c : (s.index_register + s.registers x) % 65536 > 0xFFF <;> simp [ofBool, c]
  refine ⟨_, hex, rfl, ?_, ?_, ?_, rfl⟩
  · simp only [set_reg_registers, set_reg_index, put_same, hflag]
  · simp only [set_reg_registers, set_reg_index, put_same, hflag]
    by_cases c : (s.index_register + s.registers x) % 65536 > 0xFFF <;> simp [c]
  · intro hx15
    simp only [set_reg_registers]
    exact put_other _ _ _ _ hx15

/-- Instance of C20 at x = 1 on the sample machine (I = 768, V1 = 200). -/
theorem add_index_FX1E_witness :
    ∃ s1, execute_instruction host_open sample (0xF01E + 1 * 256) = some s1 ∧
      s1.index_register = (sample.index_register + sample.registers 1) % 65536 ∧
      s1.registers 15 = (if s1.index_register > 0xFFF then 1 else 0) ∧
      (s1.registers 15 = 1 ↔ s1.index_register > 0xFFF) ∧
      (1 ≠ 15 → s1.registers 1 = sample.registers 1) ∧ s1.memory = sample.memory :=
  add_index_FX1E host_open sample 1 (by decide)

/-! ## What the loops leave alone -/

/-- The inner draw loop changes only the bitmap and the registers. -/
theorem draw_cols_frame (row x y j : Nat) (k : Nat) : ∀ (i : Nat) (st st1 : State),
    draw_cols row x y j k i st = some st1 →
    ∃ d r, st1 = { st with display := d, registers := r } := by
  induction k with
  | zero =>
    intro i st st1 h
    simp only [draw_cols, Option.some.injEq] at h
    exact ⟨st.display, st.registers, h ▸ rfl⟩
  | succ k ih =>
    intro i st st1 h
    rw [draw_cols] at h
    split at h
    · split at h
      · split at h
        · rename_i d prev _
          obtain ⟨d1, r1, e⟩ := ih _ _ _ h
          refine ⟨d1, r1, ?_⟩
          rw [e]
          cases prev <;> rfl
        · exact absurd h (by simp)
      · exact ih _ _ _ h
    · simp only [Option.some.injEq] at h
      exact ⟨st.display, st.registers, h ▸ rfl⟩

/-- The outer draw loop changes only the bitmap and the registers. -/
theorem draw_rows_frame (x y : Nat) (k : Nat) : ∀ (j : Nat) (st st1 : State),
    draw_rows x y k j st = some st1 →
    ∃ d r, st1 = { st with display := d, registers := r } := by
  induction k with
  | zero =>
    intro j st st1 h
    simp only [draw_rows, Option.some.injEq] at h
    exact ⟨st.display, st.registers, h ▸ rfl⟩
  | succ k ih =>
    intro j st st1 h
    rw [draw_rows] at h
    split at h
    · split at h
      · split at h
        · rename_i row _ st2 hc
          obtain ⟨d2, r2, e2⟩ := draw_cols_frame _ _ _ _ _ _ _ _ hc
          obtain ⟨d1, r1, e⟩ := ih _ _ _ h
          exact ⟨d1, r1, by rw [e, e2]⟩
        · exact absurd h (by simp)
      · exact absurd h (by simp)
    · simp only [Option.some.injEq] at h
      exact ⟨st.display, st.registers, h ▸ rfl⟩

/-- The loop of case `0x33` changes only memory, at addresses from I on. -/
theorem bcd_loop_frame (n : Nat) : ∀ (temp : Nat) (st st1 : State),
    bcd_loop n temp st = some st1 →
    ∃ m, st1 = { st with memory := m } ∧ ∀ a, a < st.index_register → m a = st.memory a := by
  induction n with
  | zero =>
    intro temp st st1 h
    simp only [bcd_loop, Option.some.injEq] at h
    exact ⟨st.memory, h ▸ rfl, fun _ _ => rfl⟩
  | succ n ih =>
    intro temp st st1 h
    rw [bcd_loop] at h
    split at h
    · rename_i m hm
      obtain ⟨m1, e, hlow⟩ := ih _ _ _ h
      refine ⟨m1, by rw [e], ?_⟩
      intro a ha
      rw [hlow a ha]
      simp only [mem_write] at hm
      split at hm
      · simp only [Option.some.injEq] at hm
        rw [← hm]
        exact put_other _ _ _ _ (by omega)
      · exact absurd hm (by simp)
    · exact absurd h (by simp)

/-- The loop of case `0x55` changes only memory, at addresses from I on. -/
theorem store_loop_frame (k : Nat) : ∀ (i : Nat) (st st1 : State),
    store_loop k i st = some st1 →
    ∃ m, st1 = { st with memory := m } ∧ ∀ a, a < st.index_register → m a = st.memory a := by
  induction k with
  | zero =>
    intro i st st1 h
    simp only [store_loop, Option.some.injEq] at h
    exact ⟨st.memory, h ▸ rfl, fun _ _ => rfl⟩
  | succ k ih =>
    intro i st st1 h
    rw [store_loop] at h
    split at h
    · rename_i m hm
      obtain ⟨m1, e, hlow⟩ := ih _ _ _ h
      refine ⟨m1, by rw [e], ?_⟩
      intro a ha
      rw [hlow a ha]
      simp only [mem_write] at hm
      split at hm
      · simp only [Option.some.injEq] at hm
        rw [← hm]
        exact put_other _ _ _ _ (by omega)
      · exact absurd hm (by simp)
    · exact absurd h (by simp)

/-- The loop of case `0x65` changes only the registers. -/
theorem load_loop_frame (k : Nat) : ∀ (i : Nat) (st st1 : State),
    load_loop k i st = some st1 → ∃ r, st1 = { st with registers := r } := by
  induction k with
  | zero =>
    intro i st st1 h
    simp only [load_loop, Option.some.injEq] at h
    exact ⟨st.registers, h ▸ rfl⟩
  | succ k ih =>
    intro i st st1 h
    rw [load_loop] at h
    split at h
    · obtain ⟨r1, e⟩ := ih _ _ _ h
      exact ⟨r1, by rw [e]; rfl⟩
    · exact absurd h (by simp)

/-! ## Depth of the call stack -/

/-- Case `0x8` changes only the registers. -/
theorem execute_8_frame (s : State) (w : Nat) :
    ∃ r, execute_8 s w = { s with registers := r } := by
  unfold execute_8
  split <;> exact ⟨_, rfl⟩

/-- Case `0xD`, when it has a result, leaves the stack pointer and memory alone, and
leaves `pc` alone or takes 2 off. -/
theorem execute_D_frame (h : Host) (s s1 : State) (w : Nat) (hex : execute_D h s w = some s1) :
    s1.stack_ptr = s.stack_ptr ∧ s1.memory = s.memory ∧
    s1.index_register = s.index_register ∧
    ((h.frame_drawn = false ∧ s1.pc = s.pc - 2) ∨ (h.frame_drawn = true ∧ s1.pc = s.pc)) := by
  unfold execute_D at hex
  split at hex
  · rename_i hc
    simp only [Option.some.injEq] at hex
    subst hex
    exact ⟨rfl, rfl, rfl, Or.inl ⟨by simpa using hc, rfl⟩⟩
  · rename_i hc
    obtain ⟨d, r, e⟩ := draw_rows_frame _ _ _ _ _ _ hex
    subst e
    exact ⟨rfl, rfl, rfl, Or.inr ⟨by simpa using hc, rfl⟩⟩

/-- Case `0xE`, when it has a result, changes at most `pc`, by adding 2. -/
theorem execute_E_frame (s s1 : State) (w : Nat) (hex : execute_E s w = some s1) :
    s1 = s ∨ ((w &&& 0xF = 0xE ∨ w &&& 0xF = 0x1) ∧ s1 = { s with pc := s.pc + 2 }) := by
  unfold execute_E at hex
  split at hex
  · rename_i hw
    split at hex
    · rename_i b _
      simp only [Option.some.injEq] at hex
      cases b
      · exact Or.inl hex.symm
      · exact Or.inr ⟨Or.inl hw, hex.symm⟩
    · exact absurd hex (by simp)
  · rename_i hw
    split at hex
    · rename_i b _
      simp only [Option.some.injEq] at hex
      cases b
      · exact Or.inr ⟨Or.inr hw, hex.symm⟩
      · exact Or.inl hex.symm
    · exact absurd hex (by simp)
  · simp only [Option.some.injEq] at hex
    exact Or.inl hex.symm

/-- Case `0xF`, when it has a result, leaves the stack pointer alone; it leaves
`pc` alone, or takes 2 off for FX0A with no key latched; it leaves memory
alone, or for FX33 and FX55 leaves memory below I alone. -/
theorem execute_F_frame (s s1 : State) (w : Nat) (hex : execute_F s w = some s1) :
    s1.stack_ptr = s.stack_ptr ∧
    (s1.pc = s.pc ∨ (w &&& 0xFF = 0xA ∧ s.key_up = NO_KEY ∧ s1.pc = s.pc - 2)) ∧
    (s1.memory = s.memory ∨ ((w &&& 0xFF = 0x33 ∨ w &&& 0xFF = 0x55) ∧
      ∀ a, a < s.index_register → s1.memory a = s.memory a)) := by
  unfold execute_F at hex
  split at hex
  all_goals first
    | (simp only [Option.some.injEq] at hex; subst hex; exact ⟨rfl, Or.inl rfl, Or.inl rfl⟩)
    | skip
  · rename_i hw
    simp only [Option.some.injEq] at hex
    subst hex
    by_cases hk : s.key_up = NO_KEY
    · rw [key_pressed_empty _ _ hk]
      exact ⟨rfl, Or.inr ⟨hw, hk, rfl⟩, Or.inl rfl⟩
    · rw [key_pressed_latched _ _ hk]
      exact ⟨rfl, Or.inl rfl, Or.inl rfl⟩
  · rename_i hw
    obtain ⟨m, e, hlow⟩ := bcd_loop_frame _ _ _ _ hex
    subst e
    exact ⟨rfl, Or.inl rfl, Or.inr ⟨Or.inl hw, hlow⟩⟩
  · rename_i hw
    dsimp only at hex
    split at hex
    · rename_i s2 h2
      obtain ⟨m, e, hlow⟩ := store_loop_frame _ _ _ _ h2
      simp only [Option.some.injEq] at hex
      subst hex; subst e
      exact ⟨rfl, Or.inl rfl, Or.inr ⟨Or.inr hw, hlow⟩⟩
    · exact absurd hex (by simp)
  · dsimp only at hex
    split at hex
    · rename_i s2 h2
      obtain ⟨r, e⟩ := load_loop_frame _ _ _ _ h2
      simp only [Option.some.injEq] at hex
      subst hex; subst e
      exact ⟨rfl, Or.inl rfl, Or.inl rfl⟩
    · exact absurd hex (by simp)

/-- What one instruction does to the depth of the call stack. -/
theorem stack_ptr_after (h : Host) (s s1 : State) (w : Nat)
    (hex : execute_instruction h s w = some s1) :
    s1.stack_ptr = s.stack_ptr ∨
    (NIBBLE w 1 = 2 ∧ s.stack_ptr < 16 ∧ s1.stack_ptr = s.stack_ptr + 1) ∨
    (w = 0xEE ∧ 0 < s.stack_ptr ∧ s1.stack_ptr + 1 = s.stack_ptr) := by
  unfold execute_instruction at hex
  split at hex
  · split at hex
    · simp only [Option.some.injEq] at hex; subst hex; exact Or.inl rfl
    · split at hex
      · rename_i hw
        split at hex
        · rename_i hd
          simp only [Option.some.injEq] at hex; subst hex
          refine Or.inr (Or.inr ⟨hw, hd.1, ?_⟩)
          show s.stack_ptr - 1 + 1 = s.stack_ptr
          omega
        · exact absurd hex (by simp)
      · simp only [Option.some.injEq] at hex; subst hex; exact Or.inl rfl
  · simp only [Option.some.injEq] at hex; subst hex; exact Or.inl rfl
  · rename_i hn
    split at hex
    · rename_i hd
      simp only [Option.some.injEq] at hex; subst hex
      exact Or.inr (Or.inl ⟨hn, hd, rfl⟩)
    · exact absurd hex (by simp)
  · simp only [Option.some.injEq] at hex; subst hex; left; split <;> rfl
  · simp only [Option.some.injEq] at hex; subst hex; left; split <;> rfl
  · simp only [Option.some.injEq] at hex; subst hex; left; split <;> rfl
  · simp only [Option.some.injEq] at hex; subst hex; exact Or.inl rfl
  · simp only [Option.some.injEq] at hex; subst hex; exact Or.inl rfl
  · simp only [Option.some.injEq] at hex; subst hex
    obtain ⟨r, e⟩ := execute_8_frame s w
    rw [e]; exact Or.inl rfl
  · simp only [Option.some.injEq] at hex; subst hex; left; split <;> rfl
  · simp only [Option.some.injEq] at hex; subst hex; exact Or.inl rfl
  · simp only [Option.some.injEq] at hex; subst hex; exact Or.inl rfl
  · simp only [Option.some.injEq] at hex; subst hex; exact Or.inl rfl
  · exact Or.inl (execute_D_frame h s s1 w hex).1
  · rcases execute_E_frame s s1 w hex with e | ⟨-, e⟩ <;> (subst e; exact Or.inl rfl)
  · exact Or.inl (execute_F_frame s s1 w hex).1
  · simp only [Option.some.injEq] at hex; subst hex; exact Or.inl rfl

/-! ## What one instruction does to memory and to the program counter -/

/-- An instruction with a result leaves memory alone, or, for FX33 and FX55,
leaves memory below I alone. -/
theorem memory_after (h : Host) (s s1 : State) (w : Nat)
    (hex : execute_instruction h s w = some s1) :
    s1.memory = s.memory ∨
    (NIBBLE w 1 = 0xF ∧ (w &&& 0xFF = 0x33 ∨ w &&& 0xFF = 0x55) ∧
      ∀ a, a < s.index_register → s1.memory a = s.memory a) := by
  unfold execute_instruction at hex
  split at hex
  · split at hex
    · simp only [Option.some.injEq] at hex; subst hex; exact Or.inl rfl
    · split at hex
      · split at hex
        · simp only [Option.some.injEq] at hex; subst hex; exact Or.inl rfl
        · exact absurd hex (by simp)
      · simp only [Option.some.injEq] at hex; subst hex; exact Or.inl rfl
  · simp only [Option.some.injEq] at hex; subst hex; exact Or.inl rfl
  · split at hex
    · simp only [Option.some.injEq] at hex; subst hex; exact Or.inl rfl
    · exact absurd hex (by simp)
  · simp only [Option.some.injEq] at hex; subst hex; left; split <;> rfl
  · simp only [Option.some.injEq] at hex; subst hex; left; split <;> rfl
  · simp only [Option.some.injEq] at hex; subst hex; left; split <;> rfl
  · simp only [Option.some.injEq] at hex; subst hex; exact Or.inl rfl
  · simp only [Option.some.injEq] at hex; subst hex; exact Or.inl rfl
  · simp only [Option.some.injEq] at hex; subst hex
    obtain ⟨r, e⟩ := execute_8_frame s w
    rw [e]; exact Or.inl rfl
  · simp only [Option.some.injEq] at hex; subst hex; left; split <;> rfl
  · simp only [Option.some.injEq] at hex; subst hex; exact Or.inl rfl
  · simp only [Option.some.injEq] at hex; subst hex; exact Or.inl rfl
  · simp only [Option.some.injEq] at hex; subst hex; exact Or.inl rfl
  · exact Or.inl (execute_D_frame h s s1 w hex).2.1
  · rcases execute_E_frame s s1 w hex with e | ⟨-, e⟩ <;> (subst e; exact Or.inl rfl)
  · rename_i hn
    rcases (execute_F_frame s s1 w hex).2.2 with e | ⟨hw, hlow⟩
    · exact Or.inl e
    · exact Or.inr ⟨hn, hw, hlow⟩
  · simp only [Option.some.injEq] at hex; subst hex; exact Or.inl rfl

/-- What one instruction with a result does to the program counter: nothing,
or one of the seven ways of the control instructions. -/
theorem pc_after (h : Host) (s s1 : State) (w : Nat)
    (hex : execute_instruction h s w = some s1) :
    s1.pc = s.pc ∨
    ((NIBBLE w 1 = 3 ∨ NIBBLE w 1 = 4 ∨ NIBBLE w 1 = 5 ∨ NIBBLE w 1 = 9 ∨
      (NIBBLE w 1 = 0xE ∧ (w &&& 0xF = 0xE ∨ w &&& 0xF = 0x1))) ∧ s1.pc = s.pc + 2) ∨
    ((NIBBLE w 1 = 1 ∨ NIBBLE w 1 = 2) ∧ s1.pc = ((w &&& 0xFFF : Nat) : Int)) ∨
    (NIBBLE w 1 = 0xB ∧ s1.pc = ((s.registers 0 + (w &&& 0xFFF) : Nat) : Int)) ∨
    (w = 0xEE ∧ 0 < s.stack_ptr ∧ s.stack_ptr ≤ 16 ∧ s1.pc = s.stack (s.stack_ptr - 1)) ∨
    (NIBBLE w 1 = 0xD ∧ h.frame_drawn = false ∧ s1.pc = s.pc - 2) ∨
    (NIBBLE w 1 = 0xF ∧ w &&& 0xFF = 0xA ∧ s.key_up = NO_KEY ∧ s1.pc = s.pc - 2) := by
  unfold execute_instruction at hex
  split at hex
  · split at hex
    · simp only [Option.some.injEq] at hex; subst hex; exact Or.inl rfl
    · split at hex
      · rename_i hw
        split at hex
        · rename_i hd
          simp only [Option.some.injEq] at hex; subst hex
          have hd2 : s.stack_ptr - 1 < 16 := hd.2
          exact Or.inr (Or.inr (Or.inr (Or.inr (Or.inl ⟨hw, hd.1, by omega, rfl⟩))))
        · exact absurd hex (by simp)
      · simp only [Option.some.injEq] at hex; subst hex; exact Or.inl rfl
  · rename_i hn
    simp only [Option.some.injEq] at hex; subst hex
    exact Or.inr (Or.inr (Or.inl ⟨Or.inl hn, rfl⟩))
  · rename_i hn
    split at hex
    · simp only [Option.some.injEq] at hex; subst hex
      exact Or.inr (Or.inr (Or.inl ⟨Or.inr hn, rfl⟩))
    · exact absurd hex (by simp)
  · rename_i hn
    simp only [Option.some.injEq] at hex; subst hex
    split
    · exact Or.inr (Or.inl ⟨Or.inl hn, rfl⟩)
    · exact Or.inl rfl
  · rename_i hn
    simp only [Option.some.injEq] at hex; subst hex
    split
    · exact Or.inr (Or.inl ⟨Or.inr (Or.inl hn), rfl⟩)
    · exact Or.inl rfl
  · rename_i hn
    simp only [Option.some.injEq] at hex; subst hex
    split
    · exact Or.inr (Or.inl ⟨Or.inr (Or.inr (Or.inl hn)), rfl⟩)
    · exact Or.inl rfl
  · simp only [Option.some.injEq] at hex; subst hex; exact Or.inl rfl
  · simp only [Option.some.injEq] at hex; subst hex; exact Or.inl rfl
  · simp only [Option.some.injEq] at hex; subst hex
    obtain ⟨r, e⟩ := execute_8_frame s w
    rw [e]; exact Or.inl rfl
  · rename_i hn
    simp only [Option.some.injEq] at hex; subst hex
    split
    · exact Or.inr (Or.inl ⟨Or.inr (Or.inr (Or.inr (Or.inl hn))), rfl⟩)
    · exact Or.inl rfl
  · simp only [Option.some.injEq] at hex; subst hex; exact Or.inl rfl
  · rename_i hn
    simp only [Option.some.injEq] at hex; subst hex
    exact Or.inr (Or.inr (Or.inr (Or.inl ⟨hn, rfl⟩)))
  · simp only [Option.some.injEq] at hex; subst hex; exact Or.inl rfl
  · rename_i hn
    rcases (execute_D_frame h s s1 w hex).2.2.2 with ⟨hf, e⟩ | ⟨-, e⟩
    · exact Or.inr (Or.inr (Or.inr (Or.inr (Or.inr (Or.inl ⟨hn, hf, e⟩)))))
    · exact Or.inl e
  · rename_i hn
    rcases execute_E_frame s s1 w hex with e | ⟨hw, e⟩
    · subst e; exact Or.inl rfl
    · subst e
      exact Or.inr (Or.inl ⟨Or.inr (Or.inr (Or.inr (Or.inr ⟨hn, hw⟩))), rfl⟩)
  · rename_i hn
    rcases (execute_F_frame s s1 w hex).2.1 with e | ⟨hw, hk, e⟩
    · exact Or.inl e
    · exact Or.inr (Or.inr (Or.inr (Or.inr (Or.inr (Or.inr ⟨hn, hw, hk, e⟩)))))
  · simp only [Option.some.injEq] at hex; subst hex; exact Or.inl rfl

/-- C15, amended. From a stack depth of 0..16, every instruction whose
execution has a result leaves the depth in 0..16; a call 2NNN from a depth
below 16 has a result, with the depth one higher; a call at depth 16 stores at
`stack[16]`, outside the array, and has no defined result. -/
theorem stack_depth_bounded (h : Host) (s : State) (w : Nat) (hd : s.stack_ptr ≤ 16) :
    (∀ s1, execute_instruction h s w = some s1 → s1.stack_ptr ≤ 16) ∧
    (NIBBLE w 1 = 2 → s.stack_ptr < 16 →
      ∃ s1, execute_instruction h s w = some s1 ∧ s1.stack_ptr = s.stack_ptr + 1) ∧
    (NIBBLE w 1 = 2 → s.stack_ptr = 16 → execute_instruction h s w = none) := by
  refine ⟨?_, ?_, ?_⟩
  · intro s1 hex
    rcases stack_ptr_after h s s1 w hex with e | ⟨-, h1, e⟩ | ⟨-, -, e⟩ <;> omega
  · intro hn hlt
    have hlt2 : s.stack_ptr < STACK_SIZE := hlt
    refine ⟨{ s with
      stack := put s.stack s.stack_ptr s.pc
      stack_ptr := s.stack_ptr + 1
      pc := ((w &&& 0xFFF : Nat) : Int) }, ?_, rfl⟩
    simp only [execute_instruction, hn]
    rw [if_pos hlt2]
  · intro hn h16
    have hge : ¬ s.stack_ptr < STACK_SIZE := by
      show ¬ s.stack_ptr < 16
      omega
    simp only [execute_instruction, hn]
    rw [if_neg hge]

/-- Instance of C15 as amended: `call 0x204` on the sample machine, depth 0. -/
theorem stack_depth_bounded_witness :
    sample.stack_ptr ≤ 16 ∧
    ((∀ s1, execute_instruction host_open sample 0x2204 = some s1 → s1.stack_ptr ≤ 16) ∧
    (NIBBLE 0x2204 1 = 2 → sample.stack_ptr < 16 →
      ∃ s1, execute_instruction host_open sample 0x2204 = some s1 ∧
        s1.stack_ptr = sample.stack_ptr + 1) ∧
    (NIBBLE 0x2204 1 = 2 → sample.stack_ptr = 16 →
      execute_instruction host_open sample 0x2204 = none)) :=
  ⟨by decide, stack_depth_bounded host_open sample 0x2204 (by decide)⟩

/-- C15 as stated fails: with all 16 slots in use, `call 0x204` does not give a
machine with a depth of 0..16; it stores at `stack[16]` and has no defined
result. -/
theorem call_on_full_stack :
    sample_full.stack_ptr = 16 ∧ execute_instruction host_open sample_full 0x2204 = none :=
  ⟨rfl, rfl⟩

/-- Instance of C16 as amended: `return` inside one call. -/
theorem return_pops_witness :
    (0 < sample_called.stack_ptr ∧ sample_called.stack_ptr ≤ 16) ∧
    execute_instruction host_open sample_called 0x00EE =
      some { sample_called with
        stack_ptr := sample_called.stack_ptr - 1
        pc := sample_called.stack (sample_called.stack_ptr - 1) } :=
  ⟨⟨by decide, by decide⟩, (return_pops host_open sample_called).2 (by decide) (by decide)⟩

/-! ## Words the decoder does not know -/

/-- C17, amended. A word that is not in the list of the specification, whose
first nibble is neither 5 nor 9 and which is not of the form EXYE or EXY1, is
a no-op: executing it gives the machine back as it was, so a cycle that
fetches it only advances the program counter by 2. -/
theorem unknown_is_noop (h : Host) (s : State) (w : Nat) (hl : listed w = false)
    (h5 : w / 4096 % 16 ≠ 5) (h9 : w / 4096 % 16 ≠ 9)
    (hE : ¬ (w / 4096 % 16 = 0xE ∧ (w % 16 = 0xE ∨ w % 16 = 1))) :
    execute_instruction h s w = some s ∧
    (fetched s = some w → cycle h s = some { s with pc := s.pc + 2 }) := by
  have key : ∀ s : State, execute_instruction h s w = some s := by
    intro s
    have hn : w / 4096 % 16 < 16 := Nat.mod_lt _ (by decide)
    unfold execute_instruction
    rw [NIBBLE_1]
    split
    · rename_i hv
      have e0 : w ≠ 0xE0 := by
        rintro rfl
        exact absurd hl (by decide)
      have e1 : w ≠ 0xEE := by
        rintro rfl
        exact absurd hl (by decide)
      rw [if_neg e0, if_neg e1]
    · rename_i hv; exact absurd hl (by simp [listed, hv])
    · rename_i hv; exact absurd hl (by simp [listed, hv])
    · rename_i hv; exact absurd hl (by simp [listed, hv])
    · rename_i hv; exact absurd hl (by simp [listed, hv])
    · rename_i hv; exact absurd hv h5
    · rename_i hv; exact absurd hl (by simp [listed, hv])
    · rename_i hv; exact absurd hl (by simp [listed, hv])
    · rename_i hv
      unfold execute_8
      rw [and_0xF]
      split
      all_goals first
        | rfl
        | (rename_i hlo; exact absurd hl (by simp [listed, hv, hlo]))
    · rename_i hv; exact absurd hv h9
    · rename_i hv; exact absurd hl (by simp [listed, hv])
    · rename_i hv; exact absurd hl (by simp [listed, hv])
    · rename_i hv; exact absurd hl (by simp [listed, hv])
    · rename_i hv; exact absurd hl (by simp [listed, hv])
    · rename_i hv
      unfold execute_E
      rw [and_0xF]
      split
      · rename_i hlo; exact absurd ⟨hv, Or.inl hlo⟩ hE
      · rename_i hlo; exact absurd ⟨hv, Or.inr hlo⟩ hE
      · rfl
    · rename_i hv
      unfold execute_F
      rw [and_0xFF]
      split
      all_goals first
        | rfl
        | (rename_i hlo; exact absurd hl (by simp [listed, hv, hlo]))
    · rfl
  exact ⟨key s, fun hf => by rw [cycle_of_fetched h hf]; exact key _⟩

/-- Instance of C17 as amended: the word `8128`. -/
theorem unknown_is_noop_witness :
    (listed 0x8128 = false ∧ fetched sample_unknown = some 0x8128) ∧
    execute_instruction host_open sample_unknown 0x8128 = some sample_unknown ∧
    cycle host_open sample_unknown = some { sample_unknown with pc := sample_unknown.pc + 2 } :=
  ⟨⟨by decide, by decide⟩,
    (unknown_is_noop host_open sample_unknown 0x8128 (by decide) (by decide) (by decide)
      (by decide)).1,
    (unknown_is_noop host_open sample_unknown 0x8128 (by decide) (by decide) (by decide)
      (by decide)).2 (by decide)⟩

/-- C17 as stated fails: the word `5001` is not in the list, yet the code
decodes it as the register skip, and with V0 = V0 it moves the program
counter 2 further. -/
theorem unlisted_word_skips :
    listed 0x5001 = false ∧
    execute_instruction host_open sample 0x5001 = some { sample with pc := sample.pc + 2 } ∧
    sample.pc + 2 ≠ sample.pc :=
  ⟨by decide, rfl, by decide⟩

/-! ## The glyph area -/

/-- The font loop stores `font[a]` at the addresses it passes. -/
theorem font_loop_apply (k : Nat) : ∀ (i : Nat) (m : Nat → Nat) (a : Nat),
    font_loop k i m a = if i ≤ a ∧ a < i + k then font.getD a 0 % 256 else m a := by
  induction k with
  | zero =>
    intro i m a
    have c : ¬ (i ≤ a ∧ a < i + 0) := by omega
    rw [font_loop, if_neg c]
  | succ k ih =>
    intro i m a
    rw [font_loop, ih]
    by_cases hai : a = i
    · subst hai
      have c1 : ¬ (a + 1 ≤ a ∧ a < a + 1 + k) := by omega
      have c2 : a ≤ a ∧ a < a + (k + 1) := by omega
      rw [if_neg c1, if_pos c2, put_same]
    · by_cases c : i + 1 ≤ a ∧ a < i + 1 + k
      · have c2 : i ≤ a ∧ a < i + (k + 1) := by omega
        rw [if_pos c, if_pos c2]
      · have c2 : ¬ (i ≤ a ∧ a < i + (k + 1)) := by omega
        rw [if_neg c, if_neg c2, put_other _ _ _ _ hai]

/-- Every entry of `font` is a byte. -/
theorem font_lt : ∀ a, a < 80 → font.getD a 0 % 256 = font.getD a 0 := by
  decide

/-- After `initialize_file`, memory 0..79 holds the font. -/
theorem initialize_file_glyphs (s s0 : State) (file : List Nat)
    (h : initialize_file s file = some s0) : ∀ a, a < 80 → s0.memory a = font.getD a 0 := by
  intro a ha
  unfold initialize_file at h
  split at h
  · simp only [Option.some.injEq] at h
    subst h
    show font_loop 80 0 _ a = _
    rw [font_loop_apply, if_pos ⟨Nat.zero_le _, by omega⟩, font_lt a ha]
  · exact absurd h (by simp)

/-- C14, amended. In a machine whose memory 0..79 holds the font, every
instruction whose execution has a result, other than FX33 and FX55 executed
with I below 80, leaves the memory bytes 0..79 unchanged, equal to the font. -/
theorem glyph_region_kept (h : Host) (s : State) (w : Nat)
    (hfont : ∀ a, a < 80 → s.memory a = font.getD a 0)
    (hw : ¬ (NIBBLE w 1 = 0xF ∧ (w &&& 0xFF = 0x33 ∨ w &&& 0xFF = 0x55)) ∨
      80 ≤ s.index_register) :
    ∀ s1, execute_instruction h s w = some s1 →
      ∀ a, a < 80 → s1.memory a = s.memory a ∧ s1.memory a = font.getD a 0 := by
  intro s1 hex a ha
  have keep : s1.memory a = s.memory a := by
    rcases memory_after h s s1 w hex with e | ⟨hn, hlo, hlow⟩
    · rw [e]
    · rcases hw with hw | hI
      · exact absurd ⟨hn, hlo⟩ hw
      · exact hlow a (by omega)
  exact ⟨keep, keep.trans (hfont a ha)⟩

/-- Instance of C14 as amended: FX33 with I = 768 on a freshly initialized
machine, where it has a result. -/
theorem glyph_region_kept_witness :
    ((∀ a, a < 80 → booted_bcd_768.memory a = font.getD a 0) ∧
      80 ≤ booted_bcd_768.index_register ∧
      (execute_instruction host_open booted_bcd_768 0xF033).isSome = true) ∧
    ∀ s1, execute_instruction host_open booted_bcd_768 0xF033 = some s1 →
      ∀ a, a < 80 → s1.memory a = booted_bcd_768.memory a ∧ s1.memory a = font.getD a 0 :=
  ⟨⟨initialize_file_glyphs power_on booted_bcd [0xF0, 0x33] rfl, by decide, rfl⟩,
    glyph_region_kept host_open booted_bcd_768 0xF033
      (initialize_file_glyphs power_on booted_bcd [0xF0, 0x33] rfl) (Or.inr (by decide))⟩

/-- C14 as stated fails: the machine right after initialization on the program
`F033` has I = 0 and the font byte 0xF0 at address 0; its first cycle
executes FX33 and stores the digit 0 there. -/
theorem glyph_overwritten_by_bcd :
    initialize_file power_on [0xF0, 0x33] = some booted_bcd ∧
    booted_bcd.memory 0 = 0xF0 ∧ fetched booted_bcd = some 0xF033 ∧
    (cycle host_open booted_bcd).map (fun s1 => s1.memory 0) = some 0 :=
  ⟨rfl, by decide, by decide, by decide⟩

/-! ## The program counter after a cycle -/

/-- When `fetch` returns, both bytes it read lie inside memory. -/
theorem fetched_bounds {s : State} {w : Nat} (hf : fetched s = some w) :
    0 ≤ s.pc ∧ s.pc ≤ 4094 := by
  unfold fetched fetch deref mem_read at hf
  by_cases h0 : 0 ≤ s.pc
  · by_cases h1 : (s.pc + 1).toNat < MEMORY_SIZE
    · have h1b : (s.pc + 1).toNat < 4096 := h1
      exact ⟨h0, by omega⟩
    · have h2 : (0 : Int) ≤ s.pc + 1 := by omega
      simp only [h2, if_true, h1, if_false] at hf
      split at hf
      · rename_i e1 e2
        exact absurd e2 (by simp)
      · exact absurd hf (by simp)
  · simp only [h0, if_false] at hf
    simp at hf

/-- C19, amended. In a well-formed machine whose saved stack entries are
addresses in 0..4095, a cycle that fetches an instruction (so the program
counter is in 0..4094) and has a result gives a program counter in 0..4350; it
gives one in 0..4095 when the cycle started at 4091 or below and the
instruction is not the jump-offset BNNN; and it advances the program counter
by exactly 2 when the instruction is none of those that `sets_pc` lists. -/
theorem pc_after_cycle (h : Host) (s s1 : State) (w : Nat) (hs : s.WF)
    (hstack : ∀ k, k < 16 → 0 ≤ s.stack k ∧ s.stack k ≤ 4095)
    (hf : fetched s = some w) (hc : cycle h s = some s1) :
    (0 ≤ s1.pc ∧ s1.pc ≤ 4350) ∧
    (s.pc ≤ 4091 → NIBBLE w 1 ≠ 0xB → s1.pc ≤ 4095) ∧
    (¬ sets_pc h s w → s1.pc = s.pc + 2) := by
  obtain ⟨hp0, hp1⟩ := fetched_bounds hf
  rw [cycle_of_fetched h hf] at hc
  have hv0 := hs.registers_lt 0
  have hnnn : w &&& 0xFFF < 4096 := by
    rw [and_0xFFF]; exact Nat.mod_lt _ (by decide)
  rcases pc_after h _ s1 w hc with e | ⟨hk, e⟩ | ⟨hk, e⟩ | ⟨hk, e⟩ | ⟨hw, hd0, hd1, e⟩ |
      ⟨hk, hfr, e⟩ | ⟨hk, hlo, hky, e⟩
  · have e2 : s1.pc = s.pc + 2 := e
    exact ⟨⟨by omega, by omega⟩, fun _ _ => by omega, fun _ => e2⟩
  · have e2 : s1.pc = s.pc + 2 + 2 := e
    refine ⟨⟨by omega, by omega⟩, fun _ _ => by omega, fun hn => absurd ?_ hn⟩
    unfold sets_pc
    rcases hk with k | k | k | k | k
    · exact Or.inr (Or.inr (Or.inl k))
    · exact Or.inr (Or.inr (Or.inr (Or.inl k)))
    · exact Or.inr (Or.inr (Or.inr (Or.inr (Or.inl k))))
    · exact Or.inr (Or.inr (Or.inr (Or.inr (Or.inr (Or.inl k)))))
    · exact Or.inr (Or.inr (Or.inr (Or.inr (Or.inr (Or.inr (Or.inr (Or.inr (Or.inl k))))))))
  · refine ⟨⟨by omega, by omega⟩, fun _ _ => by omega, fun hn => absurd ?_ hn⟩
    unfold sets_pc
    rcases hk with k | k
    · exact Or.inl k
    · exact Or.inr (Or.inl k)
  · have e2 : s1.pc = ((s.registers 0 + (w &&& 0xFFF) : Nat) : Int) := e
    refine ⟨⟨by omega, by omega⟩, fun _ hb => absurd hk hb, fun hn => absurd ?_ hn⟩
    unfold sets_pc
    exact Or.inr (Or.inr (Or.inr (Or.inr (Or.inr (Or.inr (Or.inl hk))))))
  · have hd0b : 0 < s.stack_ptr := hd0
    have hd1b : s.stack_ptr ≤ 16 := hd1
    have e2 : s1.pc = s.stack (s.stack_ptr - 1) := e
    obtain ⟨b0, b1⟩ := hstack (s.stack_ptr - 1) (by omega)
    refine ⟨⟨by omega, by omega⟩, fun _ _ => by omega, fun hn => absurd ?_ hn⟩
    unfold sets_pc
    exact Or.inr (Or.inr (Or.inr (Or.inr (Or.inr (Or.inr (Or.inr (Or.inl hw)))))))
  · have e2 : s1.pc = s.pc + 2 - 2 := e
    refine ⟨⟨by omega, by omega⟩, fun _ _ => by omega, fun hn => absurd ?_ hn⟩
    unfold sets_pc
    exact Or.inr (Or.inr (Or.inr (Or.inr (Or.inr (Or.inr (Or.inr (Or.inr (Or.inr
      (Or.inl ⟨hk, hfr⟩)))))))))
  · have e2 : s1.pc = s.pc + 2 - 2 := e
    have hky2 : s.key_up = NO_KEY := hky
    refine ⟨⟨by omega, by omega⟩, fun _ _ => by omega, fun hn => absurd ?_ hn⟩
    unfold sets_pc
    exact Or.inr (Or.inr (Or.inr (Or.inr (Or.inr (Or.inr (Or.inr (Or.inr (Or.inr
      (Or.inr ⟨hk, hlo, hky2⟩)))))))))

/-- Instance of C19 as amended: the first cycle of the sample machine, `6005`
at address 512. -/
theorem pc_after_cycle_witness :
    (sample.WF ∧ (∀ k, k < 16 → 0 ≤ sample.stack k ∧ sample.stack k ≤ 4095) ∧
      fetched sample = some 0x6005 ∧
      cycle host_open sample = some (({ sample with pc := sample.pc + 2 } : State).set_reg 0 5) ∧
      sample.pc ≤ 4091 ∧ NIBBLE 0x6005 1 ≠ 0xB ∧ ¬ sets_pc host_open sample 0x6005) ∧
    ((0 ≤ (({ sample with pc := sample.pc + 2 } : State).set_reg 0 5).pc ∧
      (({ sample with pc := sample.pc + 2 } : State).set_reg 0 5).pc ≤ 4350) ∧
     (({ sample with pc := sample.pc + 2 } : State).set_reg 0 5).pc ≤ 4095 ∧
     (({ sample with pc := sample.pc + 2 } : State).set_reg 0 5).pc = sample.pc + 2) :=
  have hst : ∀ k, k < 16 → 0 ≤ sample.stack k ∧ sample.stack k ≤ 4095 :=
    fun _ _ => ⟨le_refl (0 : Int), (by decide : (0 : Int) ≤ 4095)⟩
  have hn : ¬ sets_pc host_open sample 0x6005 := by
    unfold sets_pc
    decide
  ⟨⟨sample_WF, hst, by decide, rfl, by decide, by decide, hn⟩,
    match pc_after_cycle host_open sample _ 0x6005 sample_WF hst (by decide) rfl with
    | ⟨a, b, c⟩ => ⟨a, b (by decide) (by decide), c hn⟩⟩

/-- C19 as stated fails twice.  The cycle of `6005` stored in the last two
bytes of memory leaves the program counter at 4096; the cycle of `BFFF` with
V0 = 255 leaves it at 255 + 4095 = 4350. -/
theorem pc_leaves_memory :
    ((0 ≤ sample_edge.pc ∧ sample_edge.pc ≤ 4095) ∧
      (∀ k, k < 16 → 0 ≤ sample_edge.stack k ∧ sample_edge.stack k ≤ 4095) ∧
      fetched sample_edge = some 0x6005 ∧
      (cycle host_open sample_edge).map (fun s1 => s1.pc) = some 4096) ∧
    ((0 ≤ sample_jump_offset.pc ∧ sample_jump_offset.pc ≤ 4095) ∧
      (∀ k, k < 16 → 0 ≤ sample_jump_offset.stack k ∧ sample_jump_offset.stack k ≤ 4095) ∧
      fetched sample_jump_offset = some 0xBFFF ∧
      (cycle host_open sample_jump_offset).map (fun s1 => s1.pc) = some 4350) :=
  ⟨⟨⟨by decide, by decide⟩, fun _ _ => ⟨le_refl (0 : Int), (by decide : (0 : Int) ≤ 4095)⟩, by decide, by decide⟩,
    ⟨⟨by decide, by decide⟩, fun _ _ => ⟨le_refl (0 : Int), (by decide : (0 : Int) ≤ 4095)⟩, by decide, by decide⟩⟩

/-! ## The collision flag of the draw -/

/-- The inner draw loop keeps every register but V15, and sets V15 to 1 exactly
when one of the pixels it flips was on; otherwise V15 keeps its value. -/
theorem draw_cols_flag (row x y j : Nat) (hy : y + j < 32) (k : Nat) :
    ∀ (i : Nat) (st : State), ∃ st1, draw_cols row x y j k i st = some st1 ∧
      (∀ r, r ≠ 15 → st1.registers r = st.registers r) ∧
      ((∃ a, x + i ≤ a ∧ a < x + i + k ∧ a < 64 ∧ row.testBit (7 - (a - x)) = true ∧
          st.display a (y + j) = true) → st1.registers 15 = 1) ∧
      (¬ (∃ a, x + i ≤ a ∧ a < x + i + k ∧ a < 64 ∧ row.testBit (7 - (a - x)) = true ∧
          st.display a (y + j) = true) → st1.registers 15 = st.registers 15) := by
  induction k with
  | zero =>
    intro i st
    refine ⟨st, rfl, fun _ _ => rfl, ?_, fun _ => rfl⟩
    rintro ⟨a, h1, h2, -⟩
    omega
  | succ k ih =>
    intro i st
    by_cases hc : x + i < 64
    · by_cases hbit : (row >>> (7 - i)) &&& 0x1 ≠ 0
      · have htb : row.testBit (7 - i) = true := (sprite_bit_iff row i).1 hbit
        have hin : x + i < WIDTH ∧ y + j < HEIGHT := ⟨hc, hy⟩
        have key : ∀ st2 : State,
            st2.display = put2 st.display (x + i) (y + j) (!st.display (x + i) (y + j)) →
            (∀ r, r ≠ 15 → st2.registers r = st.registers r) →
            (st.display (x + i) (y + j) = true → st2.registers 15 = 1) →
            (st.display (x + i) (y + j) = false → st2.registers 15 = st.registers 15) →
            ∃ st1, draw_cols row x y j k (i + 1) st2 = some st1 ∧
              (∀ r, r ≠ 15 → st1.registers r = st.registers r) ∧
              ((∃ a, x + i ≤ a ∧ a < x + i + (k + 1) ∧ a < 64 ∧
                  row.testBit (7 - (a - x)) = true ∧ st.display a (y + j) = true) →
                st1.registers 15 = 1) ∧
              (¬ (∃ a, x + i ≤ a ∧ a < x + i + (k + 1) ∧ a < 64 ∧
                  row.testBit (7 - (a - x)) = true ∧ st.display a (y + j) = true) →
                st1.registers 15 = st.registers 15) := by
          intro st2 ed er e1 e0
          obtain ⟨st1, h1, hr, hhit, hno⟩ := ih (i + 1) st2
          have hsame : ∀ a, x + (i + 1) ≤ a → st2.display a (y + j) = st.display a (y + j) := by
            intro a ha
            rw [ed]
            have hne : ¬ (a = x + i ∧ y + j = y + j) := by omega
            show (if a = x + i ∧ y + j = y + j then _ else _) = _
            rw [if_neg hne]
          refine ⟨st1, h1, fun r hr15 => (hr r hr15).trans (er r hr15), ?_, ?_⟩
          · rintro ⟨a, a1, a2, a3, a4, a5⟩
            by_cases hlater : ∃ b, x + (i + 1) ≤ b ∧ b < x + (i + 1) + k ∧ b < 64 ∧
                row.testBit (7 - (b - x)) = true ∧ st2.display b (y + j) = true
            · exact hhit hlater
            · rw [hno hlater]
              by_cases hai : a = x + i
              · subst hai
                exact e1 a5
              · exact absurd ⟨a, by omega, by omega, a3, a4, (hsame a (by omega)).trans a5⟩
                  hlater
          · intro hnone
            have hlater : ¬ ∃ b, x + (i + 1) ≤ b ∧ b < x + (i + 1) + k ∧ b < 64 ∧
                row.testBit (7 - (b - x)) = true ∧ st2.display b (y + j) = true := by
              rintro ⟨b, b1, b2, b3, b4, b5⟩
              exact hnone ⟨b, by omega, by omega, b3, b4, (hsame b b1).symm.trans b5⟩
            rw [hno hlater]
            apply e0
            cases hd : st.display (x + i) (y + j)
            · rfl
            · exact absurd ⟨x + i, le_refl _, by omega, hc,
                by rw [Nat.add_sub_cancel_left]; exact htb, hd⟩ hnone
        rw [draw_cols, if_pos hc, if_pos hbit]
        simp only [toggle_pixel, if_pos hin, Bool.not_not]
        apply key
        · split <;> rfl
        · intro r hr15
          split
          · exact put_other _ _ _ _ hr15
          · rfl
        · intro hd
          rw [if_pos hd]
          show put st.registers 15 (1 % 256) 15 = 1
          rw [put_same]
        · intro hd
          rw [hd]
          rfl
      · have htb : ¬ row.testBit (7 - i) = true := fun e => hbit ((sprite_bit_iff row i).2 e)
        obtain ⟨st1, h1, hr, hhit, hno⟩ := ih (i + 1) st
        refine ⟨st1, ?_, hr, ?_, ?_⟩
        · rw [draw_cols, if_pos hc, if_neg hbit]
          exact h1
        · rintro ⟨a, a1, a2, a3, a4, a5⟩
          by_cases hai : a = x + i
          · subst hai
            rw [Nat.add_sub_cancel_left] at a4
            exact absurd a4 htb
          · exact hhit ⟨a, by omega, by omega, a3, a4, a5⟩
        · intro hnone
          apply hno
          rintro ⟨b, b1, b2, b3, b4, b5⟩
          exact hnone ⟨b, by omega, by omega, b3, b4, b5⟩
    · refine ⟨st, ?_, fun _ _ => rfl, ?_, fun _ => rfl⟩
      · rw [draw_cols, if_neg hc]
      · rintro ⟨a, a1, a2, a3, -⟩
        omega

/-- The outer draw loop keeps every register but V15, and sets V15 to 1 exactly
when one of the pixels it flips was on; otherwise V15 keeps its value. -/
theorem draw_rows_flag (x y : Nat) (k : Nat) :
    ∀ (j : Nat) (st : State),
      (∀ j1, j ≤ j1 → j1 < j + k → st.index_register + j1 < 4096) →
      ∃ st1, draw_rows x y k j st = some st1 ∧
        (∀ r, r ≠ 15 → st1.registers r = st.registers r) ∧
        ((∃ a b, y + j ≤ b ∧ b < y + j + k ∧ b < 32 ∧ x ≤ a ∧ a < x + 8 ∧ a < 64 ∧
            (st.memory (st.index_register + (b - y))).testBit (7 - (a - x)) = true ∧
            st.display a b = true) → st1.registers 15 = 1) ∧
        (¬ (∃ a b, y + j ≤ b ∧ b < y + j + k ∧ b < 32 ∧ x ≤ a ∧ a < x + 8 ∧ a < 64 ∧
            (st.memory (st.index_register + (b - y))).testBit (7 - (a - x)) = true ∧
            st.display a b = true) → st1.registers 15 = st.registers 15) := by
  induction k with
  | zero =>
    intro j st _
    refine ⟨st, rfl, fun _ _ => rfl, ?_, fun _ => rfl⟩
    rintro ⟨a, b, h1, h2, -⟩
    omega
  | succ k ih =>
    intro j st hmem
    by_cases hc : y + j < 32
    · have hb : st.index_register + j < MEMORY_SIZE := hmem j (le_refl _) (by omega)
      obtain ⟨st1, h1, hm1, hI1, hd1⟩ :=
        draw_cols_spec (st.memory (st.index_register + j)) x y j hc 8 0 st
      obtain ⟨st1b, h1b, hr1, hhit1, hno1⟩ :=
        draw_cols_flag (st.memory (st.index_register + j)) x y j hc 8 0 st
      have est : st1b = st1 := Option.some.inj (h1b.symm.trans h1)
      subst est
      obtain ⟨st2, h2, hr2, hhit2, hno2⟩ := ih (j + 1) st1b (by
        intro j1 l1 l2
        rw [hI1]
        exact hmem j1 (by omega) (by omega))
      have hsame : ∀ a b, y + (j + 1) ≤ b → st1b.display a b = st.display a b := by
        intro a b hb1
        rw [hd1 a b]
        have hne : ¬ (b = y + j ∧ x + 0 ≤ a ∧ a < x + 0 + 8 ∧ a < 64 ∧
            (st.memory (st.index_register + j)).testBit (7 - (a - x)) = true) := by omega
        rw [if_neg hne]
      refine ⟨st2, ?_, fun r hr15 => (hr2 r hr15).trans (hr1 r hr15), ?_, ?_⟩
      · rw [draw_rows, if_pos hc]
        simp only [mem_read, if_pos hb, h1, h2]
      · rintro ⟨a, b, b1, b2, b3, a1, a2, a3, a4, a5⟩
        by_cases hlater : ∃ a b, y + (j + 1) ≤ b ∧ b < y + (j + 1) + k ∧ b < 32 ∧ x ≤ a ∧
            a < x + 8 ∧ a < 64 ∧
            (st1b.memory (st1b.index_register + (b - y))).testBit (7 - (a - x)) = true ∧
            st1b.display a b = true
        · exact hhit2 hlater
        · rw [hno2 hlater]
          by_cases hbj : b = y + j
          · subst hbj
            rw [Nat.add_sub_cancel_left] at a4
            exact hhit1 ⟨a, by omega, by omega, a3, a4, a5⟩
          · refine absurd ⟨a, b, by omega, by omega, b3, a1, a2, a3, ?_, ?_⟩ hlater
            · rw [hm1, hI1]; exact a4
            · rw [hsame a b (by omega)]; exact a5
      · intro hnone
        have hlater : ¬ ∃ a b, y + (j + 1) ≤ b ∧ b < y + (j + 1) + k ∧ b < 32 ∧ x ≤ a ∧
            a < x + 8 ∧ a < 64 ∧
            (st1b.memory (st1b.index_register + (b - y))).testBit (7 - (a - x)) = true ∧
            st1b.display a b = true := by
          rintro ⟨a, b, b1, b2, b3, a1, a2, a3, a4, a5⟩
          rw [hm1, hI1] at a4
          rw [hsame a b b1] at a5
          exact hnone ⟨a, b, by omega, by omega, b3, a1, a2, a3, a4, a5⟩
        have hrow : ¬ ∃ a, x + 0 ≤ a ∧ a < x + 0 + 8 ∧ a < 64 ∧
            (st.memory (st.index_register + j)).testBit (7 - (a - x)) = true ∧
            st.display a (y + j) = true := by
          rintro ⟨a, a1, a2, a3, a4, a5⟩
          refine hnone ⟨a, y + j, le_refl _, by omega, hc, by omega, by omega, a3, ?_, a5⟩
          rw [Nat.add_sub_cancel_left]; exact a4
        rw [hno2 hlater, hno1 hrow]
    · refine ⟨st, ?_, fun _ _ => rfl, ?_, fun _ => rfl⟩
      · rw [draw_rows, if_neg hc]
      · rintro ⟨a, b, b1, b2, b3, -⟩
        omega

/-- C11. A DXYN executed while the frame window is open, with I + n - 1 <= 4095,
leaves register 15 equal to 1 if a set sprite bit that falls inside the 64x32
grid lands on a pixel that was on before, and equal to 0 otherwise, whatever
register 15 held and also for x = 15 or y = 15 (the position comes from the
values the registers had before); the other registers, memory and the index
register are unchanged. -/
theorem draw_collision_flag (h : Host) (hopen : h.frame_drawn = true) (s : State)
    (x y n : Nat) (hx : x < 16) (hy : y < 16) (hn : n < 16)
    (hI : s.index_register + n - 1 ≤ 4095) :
    ∃ s1, execute_instruction h s (word 0xD x y n) = some s1 ∧
      (s1.registers 15 = 1 ↔
        ∃ i j, i < 8 ∧ j < n ∧ s.registers x % 64 + i < 64 ∧ s.registers y % 32 + j < 32 ∧
          (s.memory (s.index_register + j)).testBit (7 - i) = true ∧
          s.display (s.registers x % 64 + i) (s.registers y % 32 + j) = true) ∧
      (s1.registers 15 = 1 ∨ s1.registers 15 = 0) ∧
      (∀ r, r ≠ 15 → s1.registers r = s.registers r) ∧
      s1.memory = s.memory ∧ s1.index_register = s.index_register := by
  have eX : (s.registers x &&& 63) % 256 = s.registers x % 64 := by
    rw [Nat.and_pow_two_sub_one_eq_mod _ 6]; omega
  have eY : (s.registers y &&& 31) % 256 = s.registers y % 32 := by
    rw [Nat.and_pow_two_sub_one_eq_mod _ 5]; omega
  have hmem : ∀ j1, 0 ≤ j1 → j1 < 0 + n → (s.set_reg 15 0).index_register + j1 < 4096 := by
    intro j1 _ l2
    show s.index_register + j1 < 4096
    omega
  obtain ⟨s1, h1, hm, hix, -⟩ := draw_rows_spec (s.registers x % 64) (s.registers y % 32) n 0
    (s.set_reg 15 0) hmem
  obtain ⟨s1b, h1b, hr, hhit, hno⟩ := draw_rows_flag (s.registers x % 64)
    (s.registers y % 32) n 0 (s.set_reg 15 0) hmem
  have est : s1b = s1 := Option.some.inj (h1b.symm.trans h1)
  subst est
  simp only [set_reg_memory, set_reg_index, set_reg_display, set_reg_registers] at hhit hno hr
  have hex : execute_instruction h s (word 0xD x y n) = some s1b := by
    have n1 : NIBBLE (word 0xD x y n) 1 = 0xD := NIBBLE_1_word (by omega) hx hy hn
    simp only [execute_instruction, n1, execute_D, hopen, NIBBLE_2_word hx hy hn,
      NIBBLE_3_word hy hn, NIBBLE_4_word hn, eX, eY]
    exact h1
  have hzero : put s.registers 15 (0 % 256) 15 = 0 := put_same _ _ _
  have hiff : (∃ a b, s.registers y % 32 + 0 ≤ b ∧ b < s.registers y % 32 + 0 + n ∧ b < 32 ∧
      s.registers x % 64 ≤ a ∧ a < s.registers x % 64 + 8 ∧ a < 64 ∧
      (s.memory (s.index_register + (b - s.registers y % 32))).testBit
        (7 - (a - s.registers x % 64)) = true ∧ s.display a b = true) ↔
      ∃ i j, i < 8 ∧ j < n ∧ s.registers x % 64 + i < 64 ∧ s.registers y % 32 + j < 32 ∧
        (s.memory (s.index_register + j)).testBit (7 - i) = true ∧
        s.display (s.registers x % 64 + i) (s.registers y % 32 + j) = true := by
    constructor
    · rintro ⟨a, b, b1, b2, b3, a1, a2, a3, a4, a5⟩
      refine ⟨a - s.registers x % 64, b - s.registers y % 32, by omega, by omega, by omega,
        by omega, a4, ?_⟩
      have ea : s.registers x % 64 + (a - s.registers x % 64) = a := by omega
      have eb : s.registers y % 32 + (b - s.registers y % 32) = b := by omega
      rw [ea, eb]; exact a5
    · rintro ⟨i, j, hi, hj, hxi, hyj, hb, hd⟩
      refine ⟨s.registers x % 64 + i, s.registers y % 32 + j, by omega, by omega, hyj,
        by omega, by omega, hxi, ?_, hd⟩
      rw [Nat.add_sub_cancel_left, Nat.add_sub_cancel_left]; exact hb
  refine ⟨s1b, hex, ?_, ?_, ?_, hm, hix⟩
  · constructor
    · intro h15
      by_contra hnot
      have := hno (fun e => hnot (hiff.1 e))
      rw [hzero] at this
      omega
    · intro hit
      exact hhit (hiff.2 hit)
  · by_cases hit : ∃ a b, s.registers y % 32 + 0 ≤ b ∧ b < s.registers y % 32 + 0 + n ∧
        b < 32 ∧ s.registers x % 64 ≤ a ∧ a < s.registers x % 64 + 8 ∧ a < 64 ∧
        (s.memory (s.index_register + (b - s.registers y % 32))).testBit
          (7 - (a - s.registers x % 64)) = true ∧ s.display a b = true
    · exact Or.inl (hhit hit)
    · exact Or.inr ((hno hit).trans hzero)
  · intro r hr15
    rw [hr r hr15]
    exact put_other _ _ _ _ hr15

/-- Instance of C11: the sprite `FF 81` drawn at (60, 0) over a lit pixel at
(60, 0) sets V15, which held 7, to 1. -/
theorem draw_collision_flag_witness :
    (host_open.frame_drawn = true ∧ sample_lit.index_register + 2 - 1 ≤ 4095 ∧
      sample_lit.registers 15 = 7) ∧
    ∃ s1, execute_instruction host_open sample_lit (word 0xD 4 0 2) = some s1 ∧
      s1.registers 15 = 1 ∧
      (∀ r, r ≠ 15 → s1.registers r = sample_lit.registers r) ∧
      s1.memory = sample_lit.memory ∧ s1.index_register = sample_lit.index_register :=
  ⟨⟨rfl, by decide, by decide⟩,
    match draw_collision_flag host_open rfl sample_lit 4 0 2 (by decide) (by decide)
      (by decide) (by decide) with
    | ⟨s1, h1, h2, _, h4, h5, h6⟩ =>
      ⟨s1, h1, h2.2 ⟨0, 0, by decide, by decide, by decide, by decide, by decide, by decide⟩,
        h4, h5, h6⟩⟩

/-! ## The frame limiter -/

/-- What `frame_drawn` tests, for a counter that runs: it returns true exactly
when more than 1/60000 of a second has passed since `frame_start`, that is
1/60 of a millisecond; it then takes a new counter reading as `frame_start`,
and otherwise leaves `frame_start` as it was. -/
theorem frame_drawn_spec (frame_start now later freq : Nat) (hfreq : 0 < freq) :
    ((frame_drawn frame_start now later freq).1 = true ↔
      elapsed_seconds frame_start now freq > 1 / 60000) ∧
    ((frame_drawn frame_start now later freq).1 = true →
      (frame_drawn frame_start now later freq).2 = later) ∧
    ((frame_drawn frame_start now later freq).1 = false →
      (frame_drawn frame_start now later freq).2 = frame_start) := by
  have hq : (0 : ℚ) < (freq : ℚ) := by exact_mod_cast hfreq
  have key : (((now + 2 ^ 64 - frame_start) % 2 ^ 64 : Nat) : ℚ) / (freq : ℚ) * 1000 >
      1 / ((FPS : Nat) : ℚ) ↔ elapsed_seconds frame_start now freq > 1 / 60000 := by
    unfold elapsed_seconds
    have e : (1 : ℚ) / ((FPS : Nat) : ℚ) = 1 / 60000 * 1000 := by norm_num
    rw [e]
    constructor
    · intro hlt
      exact lt_of_mul_lt_mul_right hlt (by norm_num)
    · intro hlt
      exact mul_lt_mul_of_pos_right hlt (by norm_num)
  by_cases c : (((now + 2 ^ 64 - frame_start) % 2 ^ 64 : Nat) : ℚ) / (freq : ℚ) * 1000 >
      1 / ((FPS : Nat) : ℚ)
  · have ht : frame_drawn frame_start now later freq = (true, later) := by
      unfold frame_drawn
      exact if_pos c
    rw [ht]
    exact ⟨⟨fun _ => key.1 c, fun _ => rfl⟩, fun _ => rfl,
      fun hf => absurd hf (by simp)⟩
  · have ht : frame_drawn frame_start now later freq = (false, frame_start) := by
      unfold frame_drawn
      exact if_neg c
    rw [ht]
    exact ⟨⟨fun hf => absurd hf (by simp), fun hgt => absurd (key.2 hgt) c⟩,
      fun hf => absurd hf (by simp), fun _ => rfl⟩

/-- C21, at a failing input. The claim lets `frame_drawn` return true only once
1/60 of a second has passed since `frame_start`.  With a counter of 10^9 ticks
per second, `frame_start = 0` and a counter reading of 1953125, only 1/512 of
a second has passed, which is less than 1/60; `frame_drawn` returns true and
takes the next counter reading as `frame_start`. -/
theorem frame_drawn_after_two_milliseconds :
    elapsed_seconds 0 1953125 1000000000 = 1 / 512 ∧ (1 / 512 : ℚ) < 1 / 60 ∧
    frame_drawn 0 1953125 2000000 1000000000 = (true, 2000000) := by
  refine ⟨?_, ?_, ?_⟩
  · norm_num [elapsed_seconds]
  · norm_num
  · norm_num [frame_drawn]

/-! ## Drawing the same sprite twice -/

/-- Whether a pixel is under the sprite depends on memory and the index
register only. -/
theorem sprite_covers_congr {s t : State} (hm : t.memory = s.memory)
    (hi : t.index_register = s.index_register) (X Y n a b : Nat) :
    sprite_covers t X Y n a b ↔ sprite_covers s X Y n a b := by
  unfold sprite_covers
  rw [hm, hi]

/-- Everything a DXYN does while the frame window is open and its sprite lies
inside memory: it has a result; memory, the index register and the registers
other than V15 are kept; the pixels under the sprite are flipped and no
others; V15 ends as 1 if one of them was on and as 0 otherwise. -/
theorem draw_open_effect (h : Host) (hopen : h.frame_drawn = true) (s : State)
    (x y n : Nat) (hx : x < 16) (hy : y < 16) (hn : n < 16)
    (hI : s.index_register + n - 1 ≤ 4095) :
    ∃ s1, execute_instruction h s (word 0xD x y n) = some s1 ∧
      s1.memory = s.memory ∧ s1.index_register = s.index_register ∧
      (∀ r, r ≠ 15 → s1.registers r = s.registers r) ∧
      (∀ a b, s1.display a b =
        if sprite_covers s (s.registers x % 64) (s.registers y % 32) n a b
        then !s.display a b else s.display a b) ∧
      ((∃ a b, sprite_covers s (s.registers x % 64) (s.registers y % 32) n a b ∧
          s.display a b = true) → s1.registers 15 = 1) ∧
      (¬ (∃ a b, sprite_covers s (s.registers x % 64) (s.registers y % 32) n a b ∧
          s.display a b = true) → s1.registers 15 = 0) := by
  have eX : (s.registers x &&& 63) % 256 = s.registers x % 64 := by
    rw [Nat.and_pow_two_sub_one_eq_mod _ 6]; omega
  have eY : (s.registers y &&& 31) % 256 = s.registers y % 32 := by
    rw [Nat.and_pow_two_sub_one_eq_mod _ 5]; omega
  have hmem : ∀ j1, 0 ≤ j1 → j1 < 0 + n → (s.set_reg 15 0).index_register + j1 < 4096 := by
    intro j1 _ l2
    show s.index_register + j1 < 4096
    omega
  obtain ⟨s1, h1, hm, hix, hd⟩ := draw_rows_spec (s.registers x % 64) (s.registers y % 32) n 0
    (s.set_reg 15 0) hmem
  obtain ⟨s1b, h1b, hr, hhit, hno⟩ := draw_rows_flag (s.registers x % 64)
    (s.registers y % 32) n 0 (s.set_reg 15 0) hmem
  have est : s1b = s1 := Option.some.inj (h1b.symm.trans h1)
  subst est
  simp only [set_reg_memory, set_reg_index, set_reg_display, set_reg_registers] at hhit hno hr hd
  have hex : execute_instruction h s (word 0xD x y n) = some s1b := by
    have n1 : NIBBLE (word 0xD x y n) 1 = 0xD := NIBBLE_1_word (by omega) hx hy hn
    simp only [execute_instruction, n1, execute_D, hopen, NIBBLE_2_word hx hy hn,
      NIBBLE_3_word hy hn, NIBBLE_4_word hn, eX, eY]
    exact h1
  have hzero : put s.registers 15 (0 % 256) 15 = 0 := put_same _ _ _
  refine ⟨s1b, hex, hm, hix, ?_, ?_, ?_, ?_⟩
  · intro r hr15
    rw [hr r hr15]
    exact put_other _ _ _ _ hr15
  · intro a b
    by_cases c : sprite_covers s (s.registers x % 64) (s.registers y % 32) n a b
    · rw [if_pos c]
      exact (hd a b).trans (if_pos c)
    · rw [if_neg c]
      exact (hd a b).trans (if_neg c)
  · rintro ⟨a, b, ⟨c1, c2, c3, c4, c5, c6, c7⟩, cd⟩
    exact hhit ⟨a, b, c1, c2, c3, c4, c5, c6, c7, cd⟩
  · intro hnone
    rw [hno, hzero]
    rintro ⟨a, b, c1, c2, c3, c4, c5, c6, c7, cd⟩
    exact hnone ⟨a, b, ⟨c1, c2, c3, c4, c5, c6, c7⟩, cd⟩

/-- C22, amended. With x and y different from 15 and I + n - 1 <= 4095,
executing the same DXYN twice with the frame window open both times gives
every pixel the state it had before the first draw; after the second draw
register 15 is 1 exactly when a set sprite bit that falls inside the grid lies
on a pixel that was off before the first draw, and 0 otherwise. -/
theorem draw_twice (h1 h2 : Host) (hopen1 : h1.frame_drawn = true)
    (hopen2 : h2.frame_drawn = true) (s : State) (x y n : Nat)
    (hx : x < 16) (hy : y < 16) (hn : n < 16) (hx15 : x ≠ 15) (hy15 : y ≠ 15)
    (hI : s.index_register + n - 1 ≤ 4095) :
    ∃ s1 s2, execute_instruction h1 s (word 0xD x y n) = some s1 ∧
      execute_instruction h2 s1 (word 0xD x y n) = some s2 ∧
      (∀ px py, s2.display px py = s.display px py) ∧
      (s2.registers 15 = 1 ↔
        ∃ i j, i < 8 ∧ j < n ∧ s.registers x % 64 + i < 64 ∧ s.registers y % 32 + j < 32 ∧
          (s.memory (s.index_register + j)).testBit (7 - i) = true ∧
          s.display (s.registers x % 64 + i) (s.registers y % 32 + j) = false) ∧
      (s2.registers 15 = 1 ∨ s2.registers 15 = 0) := by
  obtain ⟨s1, e1, m1, i1, r1, d1, -, -⟩ := draw_open_effect h1 hopen1 s x y n hx hy hn hI
  obtain ⟨s2, e2, -, -, -, d2, hit2, no2⟩ :=
    draw_open_effect h2 hopen2 s1 x y n hx hy hn (by rw [i1]; exact hI)
  rw [r1 x hx15, r1 y hy15] at d2 hit2 no2
  have hcov : ∀ a b, sprite_covers s1 (s.registers x % 64) (s.registers y % 32) n a b ↔
      sprite_covers s (s.registers x % 64) (s.registers y % 32) n a b :=
    fun a b => sprite_covers_congr m1 i1 _ _ _ a b
  have hiff : (∃ a b, sprite_covers s1 (s.registers x % 64) (s.registers y % 32) n a b ∧
      s1.display a b = true) ↔
      ∃ i j, i < 8 ∧ j < n ∧ s.registers x % 64 + i < 64 ∧ s.registers y % 32 + j < 32 ∧
        (s.memory (s.index_register + j)).testBit (7 - i) = true ∧
        s.display (s.registers x % 64 + i) (s.registers y % 32 + j) = false := by
    constructor
    · rintro ⟨a, b, c, cd⟩
      have cs := (hcov a b).1 c
      rw [d1 a b, if_pos cs] at cd
      obtain ⟨c1, c2, c3, c4, c5, c6, c7⟩ := cs
      refine ⟨a - s.registers x % 64, b - s.registers y % 32, by omega, by omega, by omega,
        by omega, c7, ?_⟩
      have ea : s.registers x % 64 + (a - s.registers x % 64) = a := by omega
      have eb : s.registers y % 32 + (b - s.registers y % 32) = b := by omega
      rw [ea, eb]
      cases hd : s.display a b
      · rfl
      · rw [hd] at cd
        exact absurd cd (by decide)
    · rintro ⟨i, j, hi, hj, hxi, hyj, hb, hd⟩
      have cs : sprite_covers s (s.registers x % 64) (s.registers y % 32) n
          (s.registers x % 64 + i) (s.registers y % 32 + j) := by
        refine ⟨by omega, by omega, hyj, by omega, by omega, hxi, ?_⟩
        rw [Nat.add_sub_cancel_left, Nat.add_sub_cancel_left]
        exact hb
      refine ⟨_, _, (hcov _ _).2 cs, ?_⟩
      rw [d1, if_pos cs, hd]
      rfl
  refine ⟨s1, s2, e1, e2, ?_, ?_, ?_⟩
  · intro px py
    rw [d2 px py, d1 px py]
    by_cases c : sprite_covers s (s.registers x % 64) (s.registers y % 32) n px py
    · rw [if_pos ((hcov px py).2 c), if_pos c, Bool.not_not]
    · rw [if_neg (fun e => c ((hcov px py).1 e)), if_neg c]
  · constructor
    · intro h15
      by_contra hnot
      have h0 := no2 (fun e => hnot (hiff.1 e))
      omega
    · intro hit
      exact hit2 (hiff.2 hit)
  · by_cases hit : ∃ a b, sprite_covers s1 (s.registers x % 64) (s.registers y % 32) n a b ∧
        s1.display a b = true
    · exact Or.inl (hit2 hit)
    · exact Or.inr (no2 hit)

/-- Instance of C22 as amended: the one-row sprite `FF` drawn twice at (60, 0)
on the blank screen of the sample machine; the second draw finds the pixels
the first one switched on and ends with V15 = 1. -/
theorem draw_twice_witness :
    (host_open.frame_drawn = true ∧ (4 : Nat) ≠ 15 ∧ (0 : Nat) ≠ 15 ∧
      sample.index_register + 1 - 1 ≤ 4095) ∧
    ∃ s1 s2, execute_instruction host_open sample (word 0xD 4 0 1) = some s1 ∧
      execute_instruction host_open s1 (word 0xD 4 0 1) = some s2 ∧
      (∀ px py, s2.display px py = sample.display px py) ∧ s2.registers 15 = 1 :=
  ⟨⟨rfl, by decide, by decide, by decide⟩,
    match draw_twice host_open host_open rfl rfl sample 4 0 1 (by decide) (by decide)
      (by decide) (by decide) (by decide) (by decide) with
    | ⟨s1, s2, e1, e2, hd, hf, _⟩ =>
      ⟨s1, s2, e1, e2, hd,
        hf.2 ⟨0, 0, by decide, by decide, by decide, by decide, by decide, by decide⟩⟩⟩

/-- C22 as stated fails in its second half: on a screen with every pixel on,
the one-row sprite `FF` at (60, 0) has set bits inside the grid, yet after
drawing it twice register 15 is 0: the first draw switched its pixels off, so
the second draw meets no lit pixel. -/
theorem draw_twice_flag_clear :
    (∃ i j, i < 8 ∧ j < 1 ∧ sample_all_lit.registers 4 % 64 + i < 64 ∧
      sample_all_lit.registers 0 % 32 + j < 32 ∧
      (sample_all_lit.memory (sample_all_lit.index_register + j)).testBit (7 - i) = true) ∧
    ((execute_instruction host_open sample_all_lit (word 0xD 4 0 1)).bind
      (fun s1 => execute_instruction host_open s1 (word 0xD 4 0 1))).map
        (fun s2 => s2.registers 15) = some 0 :=
  ⟨⟨0, 0, by decide, by decide, by decide, by decide, by decide⟩, by decide⟩

end Chip8
